import Mathlib

/-!
# Verification of the gmail-analyzer sync / hybrid-classification core

Shallow embedding of the repository's core logic:

* `parseBatchAnalysisResult` / `getDefaultAnalysis` — AI batch-response parsing
  (`src/src/app/api/analyze/route.ts`),
* `analyzeBatchEmailsWithClaude`, `analyzeEmailsWithSnippets`,
  `analyzeEmailsProgressively` — the AI classifier and the progressive
  (confidence-escalation) protocol,
* the token-accounting in `runHybridCleanupAnalysis`,
* `generateReport` — report aggregation,
* `RateLimiter.waitIfNeeded` (`src/utils/rateLimiter.ts`),
* `classifyEmail` — the local classifier of the sync route,
* `createOrUpdateEmails`, `cleanupEmailsInRange` (`src/lib/database.ts`) and
  `EmailSyncer.syncEmails` (`src/app/api/sync/route.ts`).

JavaScript builtins are modelled explicitly: `JSON.parse` as a total
`jsonParse : String → Option Json` over an inductive JSON value type
(restricted to the JSON subset the prompts exchange: integer numerals, the
common escape sequences), `String.prototype.replace` of the fence regex as a
character-level scan, truthiness and `undefined`-propagation via `Option`.
Machine time is modelled as `Int` milliseconds.
-/

namespace GmailAnalyzer

/-- JSON values as produced by `JSON.parse` (numbers restricted to integers;
`JSON.parse` can never produce `undefined`, so `undefined` is represented as
`Option.none` at the use sites instead of a constructor). -/
inductive Json where
  | null : Json
  | bool (b : Bool) : Json
  | num (n : Int) : Json
  | str (s : String) : Json
  | arr (elems : List Json) : Json
  | obj (fields : List (String × Json)) : Json

instance : Inhabited Json := ⟨Json.null⟩

/-- JavaScript truthiness of a JSON value. -/
def Json.truthy : Json → Bool
  | .null => false
  | .bool b => b
  | .num n => n != 0
  | .str s => s ≠ ""
  | .arr _ => true
  | .obj _ => true

/-- Property lookup `j.key` on a parsed JSON value: `some` if the field is
present on an object, `none` for JavaScript `undefined` (absent field, or
property access on a primitive).  Access on `null` throws in JavaScript and is
handled separately at the call sites that can meet it. -/
def Json.getField : Json → String → Option Json
  | .obj fields, key => fields.lookup key
  | _, _ => none

/-- The JavaScript strict comparison `j.key === t` for an integer `t`:
true exactly when the field is present and is the number `t`. -/
def Json.fieldEqNum (j : Json) (key : String) (t : Int) : Bool :=
  match j.getField key with
  | some (.num n) => n = t
  | _ => false

/-- The JavaScript strict comparison `j.key === s` for a string `s`. -/
def Json.fieldEqStr (j : Json) (key : String) (s : String) : Bool :=
  match j.getField key with
  | some (.str v) => v = s
  | _ => false

/-- Object-spread / rest-destructuring `const { id, ...clean } = result` for a
truthy `result`: objects lose their `id` field, arrays spread to index-keyed
fields, other truthy primitives spread to an empty object.  (String
index-spreading is not modelled; no claim exercises it.) -/
def Json.removeId : Json → Json
  | .obj fields => .obj (fields.filter (fun f => f.1 ≠ "id"))
  | .arr elems => .obj (elems.enum.map (fun p => (toString p.1, p.2)))
  | _ => .obj []

/- ### Fence stripping: `response.replace(/```json\n?|\n?```/g, '')` -/

/-- The backtick character. -/
def btick : Char := Char.ofNat 96

/-- Global replace of the fence regex `/```json\n?|\n?```/g` by the empty
string: scan left to right, try a match at each position (the
fence-with-`json` alternative first, its optional `\n` greedy, exactly the
JavaScript alternation order), restart after the end of each match, otherwise
emit one character and advance.  Fuel-indexed to keep the recursion
structural. -/
def stripLoop : Nat → List Char → List Char
  | 0, cs => cs
  | Nat.succ _, [] => []
  | Nat.succ fuel, a :: t1 =>
    if a = btick then
      match t1 with
      | b :: c :: t3 =>
        if b = btick ∧ c = btick then
          match t3 with
          | 'j' :: 's' :: 'o' :: 'n' :: t7 =>
            match t7 with
            | '\n' :: t8 => stripLoop fuel t8
            | _ => stripLoop fuel t7
          | _ => stripLoop fuel t3
        else a :: stripLoop fuel t1
      | _ => a :: stripLoop fuel t1
    else if a = '\n' then
      match t1 with
      | b :: c :: d :: t4 =>
        if b = btick ∧ c = btick ∧ d = btick then stripLoop fuel t4
        else a :: stripLoop fuel t1
      | _ => a :: stripLoop fuel t1
    else a :: stripLoop fuel t1

/-- The scan over a whole character list (each step consumes at least one
character, so `cs.length` fuel always suffices). -/
def stripFencesList (cs : List Char) : List Char :=
  stripLoop cs.length cs

/-- `response.replace(/```json\n?|\n?```/g, '')`. -/
def stripFences (s : String) : String :=
  ⟨stripFencesList s.toList⟩

/-- Whether a character is JavaScript `String.prototype.trim` whitespace. -/
def isWsChar (c : Char) : Bool :=
  c = ' ' ∨ c = '\n' ∨ c = '\t' ∨ c = '\r'

/-- `s.trim()`: strip whitespace from both ends. -/
def jsTrim (s : String) : String :=
  ⟨(((s.toList.dropWhile isWsChar).reverse.dropWhile isWsChar).reverse)⟩

/- ### `JSON.parse`

A total reference model of `JSON.parse`, restricted to the JSON subset the
prompts exchange: integer numerals (floats are rejected rather than parsed),
the single-character escape sequences (`\uXXXX` escapes are taken literally).
Any input outside the modelled subset parses to `none`, which the caller
treats like a `JSON.parse` exception. -/

/-- The opening brace character. -/
def lbrace : Char := Char.ofNat 123

/-- The closing brace character. -/
def rbrace : Char := Char.ofNat 125

/-- Skip JSON whitespace. -/
def skipWs (cs : List Char) : List Char :=
  cs.dropWhile isWsChar

/-- Resolve a single-character escape sequence. -/
def escChar (c : Char) : Char :=
  match c with
  | 'n' => '\n'
  | 't' => '\t'
  | 'r' => '\r'
  | 'b' => Char.ofNat 8
  | 'f' => Char.ofNat 12
  | _ => c

/-- Parse the body of a string literal (opening quote already consumed),
returning the characters and the input after the closing quote. -/
def parseStringChars : List Char → Option (List Char × List Char)
  | [] => none
  | '"' :: rest => some ([], rest)
  | '\\' :: c :: rest =>
    match parseStringChars rest with
    | some (s, r) => some (escChar c :: s, r)
    | none => none
  | c :: rest =>
    match parseStringChars rest with
    | some (s, r) => some (c :: s, r)
    | none => none

/-- Decimal value of a digit run. -/
def digitsToNat (ds : List Char) : Nat :=
  ds.foldl (fun a c => a * 10 + (c.toNat - 48)) 0

/-- Parse an integer numeral. -/
def parseNumber (cs : List Char) : Option (Int × List Char) :=
  match cs with
  | '-' :: rest =>
    let ds := rest.takeWhile Char.isDigit
    if ds = [] then none
    else some (-(digitsToNat ds : Int), rest.dropWhile Char.isDigit)
  | _ =>
    let ds := cs.takeWhile Char.isDigit
    if ds = [] then none
    else some ((digitsToNat ds : Int), cs.dropWhile Char.isDigit)

/-- What the recursive-descent parser is currently parsing: a single value,
the items of an array (after `[` or a comma), or the fields of an object
(after the opening brace or a comma). -/
inductive ParseTask where
  | value : ParseTask
  | items (first : Bool) : ParseTask
  | fields (first : Bool) : ParseTask

/-- The recursive-descent JSON parser, fuel-indexed to make totality
manifest (the fuel supplied by `jsonParse` always suffices). -/
def parseRun : Nat → ParseTask → List Char → Option (Json × List Char)
  | 0, _, _ => none
  | Nat.succ fuel, .value, cs =>
    match skipWs cs with
    | [] => none
    | c :: rest =>
      if c = lbrace then parseRun fuel (.fields true) rest
      else
        match c :: rest with
        | 'n' :: 'u' :: 'l' :: 'l' :: r => some (.null, r)
        | 't' :: 'r' :: 'u' :: 'e' :: r => some (.bool true, r)
        | 'f' :: 'a' :: 'l' :: 's' :: 'e' :: r => some (.bool false, r)
        | '"' :: r =>
          match parseStringChars r with
          | some (str, r2) => some (.str ⟨str⟩, r2)
          | none => none
        | '[' :: r => parseRun fuel (.items true) r
        | cs2 =>
          match parseNumber cs2 with
          | some (n, r) => some (.num n, r)
          | none => none
  | Nat.succ fuel, .items first, cs =>
    match skipWs cs with
    | ']' :: r => if first then some (.arr [], r) else none
    | cs' =>
      match parseRun fuel .value cs' with
      | some (v, r1) =>
        match skipWs r1 with
        | ',' :: r2 =>
          match parseRun fuel (.items false) r2 with
          | some (.arr vs, r3) => some (.arr (v :: vs), r3)
          | _ => none
        | ']' :: r2 => some (.arr [v], r2)
        | _ => none
      | none => none
  | Nat.succ fuel, .fields first, cs =>
    match skipWs cs with
    | [] => none
    | c :: rest =>
      if c = rbrace then (if first then some (.obj [], rest) else none)
      else
        match c :: rest with
        | '"' :: r =>
          match parseStringChars r with
          | some (k, r1) =>
            match skipWs r1 with
            | ':' :: r2 =>
              match parseRun fuel .value r2 with
              | some (v, r3) =>
                match skipWs r3 with
                | ',' :: r4 =>
                  match parseRun fuel (.fields false) r4 with
                  | some (.obj fs, r5) => some (.obj ((⟨k⟩, v) :: fs), r5)
                  | _ => none
                | c2 :: r4 => if c2 = rbrace then some (.obj [(⟨k⟩, v)], r4) else none
                | [] => none
              | none => none
            | _ => none
          | none => none
        | _ => none

/-- `JSON.parse`: `some` on success, `none` where JavaScript would throw. -/
def jsonParse (s : String) : Option Json :=
  match parseRun (2 * s.length + 2) .value s.toList with
  | some (j, rest) => if skipWs rest = [] then some j else none
  | none => none

/- ### `parseBatchAnalysisResult` and `getDefaultAnalysis` -/

/-- `getDefaultAnalysis()`: the conservative default when AI analysis fails. -/
def getDefaultAnalysis : Json :=
  .obj [("category", .str "unknown"), ("priority", .str "low"),
        ("cleanupRecommendation", .str "keep"),
        ("reasoning", .str "Analysis failed - keeping for safety until manual review"),
        ("spaceImpact", .str "low"), ("confidence", .str "low")]

/-- `parsed.find(r => r.id === i + 1)`: scans left to right; reading `.id`
off a `null` element throws (the `.error` case, caught by the surrounding
`try`). -/
def findById : List Json → Int → Except Unit (Option Json)
  | [], _ => .ok none
  | r :: rest, t =>
    match r with
    | .null => .error ()
    | _ => if r.fieldEqNum "id" t then .ok (some r) else findById rest t

/-- One iteration of the result-mapping loop: id-match first, positional
fallback second, default last; a truthy result is destructured to drop its
`id` field. -/
def entryAt (l : List Json) (i : Nat) : Except Unit Json :=
  match findById l ((i : Int) + 1) with
  | .error e => .error e
  | .ok fnd =>
    let result := match fnd with
      | some r => r
      | none => l.getD i Json.null
    .ok (if result.truthy then result.removeId else getDefaultAnalysis)

/-- The `for (let i = 0; i < expectedCount; i++)` result-mapping loop. -/
def extractLoop (l : List Json) : List Nat → Except Unit (List Json)
  | [] => .ok []
  | i :: is =>
    match entryAt l i with
    | .error e => .error e
    | .ok r =>
      match extractLoop l is with
      | .error e => .error e
      | .ok rest => .ok (r :: rest)

/-- `GmailAnalyzer.parseBatchAnalysisResult(response, expectedCount)`.
Strips code fences, trims, `JSON.parse`s; an array is mapped position by
position (id-match, positional fallback, default), any other value is
broadcast via `Array(expectedCount).fill(parsed)`, and any thrown error
(parse failure, or `.id` access on a `null` array element) yields the
default analysis for every position. -/
def parseBatchAnalysisResult (response : String) (expectedCount : Nat) : List Json :=
  match jsonParse (jsTrim (stripFences response)) with
  | some (.arr l) =>
    match extractLoop l (List.range expectedCount) with
    | .ok results => results
    | .error _ => List.replicate expectedCount getDefaultAnalysis
  | some j => List.replicate expectedCount j
  | none => List.replicate expectedCount getDefaultAnalysis

/-- Pure rendering of one iteration of the result-mapping loop, valid when no
array element is `null`. -/
def entryAtPure (l : List Json) (i : Nat) : Json :=
  let result := match l.find? (fun r => r.fieldEqNum "id" ((i : Int) + 1)) with
    | some r => r
    | none => l.getD i Json.null
  if result.truthy then result.removeId else getDefaultAnalysis

/- ### The AI classifier: `analyzeBatchEmailsWithClaude`, `analyzeEmailsWithSnippets`
and the progressive escalation protocol `analyzeEmailsProgressively`.

The remote Bedrock invocation is abstracted as an `AICallOutcome` (the
response text and usage counters on success, or a transport error); prompt
construction only shapes the outgoing request, never the result processing,
so it is not modelled.  The classification `mode` likewise only selects a
prompt variant and is dropped. -/

/-- One email as handled by the analyze route (threadId/to/labels/attachment
fields ride along unchanged and are omitted). -/
structure EmailData where
  id : String
  threadId : String
  subject : String
  «from» : String
  snippet : String
  date : Int
  size : Nat
deriving Repr, DecidableEq, Inhabited

/-- The `tokenUsage` object attached to a result.  Numeric fields are
`Option Nat` so that the JavaScript `undefined` of a spread-out missing
usage propagates faithfully; `followUpRequest` is absent (= `false`) until
the progressive splice sets it. -/
structure TokenUsage where
  inputTokens : Option Nat
  outputTokens : Option Nat
  totalTokens : Option Nat
  followUpRequest : Bool
deriving Repr, DecidableEq, Inhabited

/-- One per-message analysis result: the parsed JSON body spread together
with an optional `tokenUsage` property (`none` when the result came from the
transport-failure default path, which attaches no usage). -/
structure AnalysisResult where
  body : Json
  tokenUsage : Option TokenUsage

instance : Inhabited AnalysisResult := ⟨⟨Json.null, none⟩⟩

/-- `Math.round(a / n)` on nonnegative integers (JavaScript rounds half up). -/
def jsRound (a n : Nat) : Nat := (2 * a + n) / (2 * n)

/-- Outcome of one Bedrock `InvokeModelCommand`: the model's text plus the
usage counters, or a transport/invocation error (caught by the `try`). -/
inductive AICallOutcome where
  | success (text : String) (inputTokens outputTokens : Nat) : AICallOutcome
  | failure : AICallOutcome

/-- `GmailAnalyzer.analyzeBatchEmailsWithClaude(emails, mode)`: parse the
batch response, distribute the call's token usage evenly (rounded) over all
results; on invocation error return the default analysis (with no usage
attached) for every email. -/
def analyzeBatchEmailsWithClaude (outcome : AICallOutcome) (emails : List EmailData) :
    List AnalysisResult :=
  match outcome with
  | .success text inTok outTok =>
    let n := emails.length
    let parsedResults := parseBatchAnalysisResult text n
    let tokenUsagePerEmail : TokenUsage :=
      { inputTokens := some (jsRound inTok n), outputTokens := some (jsRound outTok n),
        totalTokens := some (jsRound (inTok + outTok) n), followUpRequest := false }
    parsedResults.map (fun r => { body := r, tokenUsage := some tokenUsagePerEmail })
  | .failure => emails.map (fun _ => { body := getDefaultAnalysis, tokenUsage := none })

/-- `GmailAnalyzer.analyzeEmailsWithSnippets(emails, mode)`: identical result
processing to the batch call (it differs only in the enhanced prompt and the
larger `max_tokens` budget, which shape the remote request). -/
def analyzeEmailsWithSnippets (outcome : AICallOutcome) (emails : List EmailData) :
    List AnalysisResult :=
  match outcome with
  | .success text inTok outTok =>
    let n := emails.length
    let parsedResults := parseBatchAnalysisResult text n
    let tokenUsagePerEmail : TokenUsage :=
      { inputTokens := some (jsRound inTok n), outputTokens := some (jsRound outTok n),
        totalTokens := some (jsRound (inTok + outTok) n), followUpRequest := false }
    parsedResults.map (fun r => { body := r, tokenUsage := some tokenUsagePerEmail })
  | .failure => emails.map (fun _ => { body := getDefaultAnalysis, tokenUsage := none })

/-- `result.confidence === 'low'` on the merged result object. -/
def isLowConfidence (r : AnalysisResult) : Bool :=
  r.body.fieldEqStr "confidence" "low"

/-- The indices the `initialResults.forEach` flags for escalation, in visit
order. -/
def lowConfidenceIndices (rs : List AnalysisResult) : List Nat :=
  (List.range rs.length).filter (fun i => isLowConfidence (rs.getD i default))

/-- `{...enhancedResult.tokenUsage}`: spreading `undefined` yields an empty
object (all fields `undefined`). -/
def spreadUsage : Option TokenUsage → TokenUsage
  | some u => u
  | none => { inputTokens := none, outputTokens := none, totalTokens := none,
              followUpRequest := false }

/-- The progressive splice
`{...enhancedResult, tokenUsage: {...enhancedResult.tokenUsage, followUpRequest: true}}`. -/
def markFollowUp (r : AnalysisResult) : AnalysisResult :=
  { r with tokenUsage := some { spreadUsage r.tokenUsage with followUpRequest := true } }

/-- The `enhancedResults.forEach` splice: in-place assignments
`finalResults[lowConfidenceEmails[i].index] = ...` applied left to right. -/
def applyUpdates (rs : List AnalysisResult) (ups : List (Nat × AnalysisResult)) :
    List AnalysisResult :=
  ups.foldl (fun acc p => acc.set p.1 p.2) rs

/-- `GmailAnalyzer.analyzeEmailsProgressively(emails, mode)`.  Returns the
final result list together with the batch handed to the (at most one)
enhanced `analyzeEmailsWithSnippets` call — `none` when no enhanced call is
made. -/
def analyzeEmailsProgressively (initialOut enhancedOut : AICallOutcome)
    (emails : List EmailData) : List AnalysisResult × Option (List EmailData) :=
  let initialResults := analyzeBatchEmailsWithClaude initialOut emails
  let lowIdx := lowConfidenceIndices initialResults
  if lowIdx = [] then (initialResults, none)
  else
    let followUpBatch := lowIdx.map (fun i => emails.getD i default)
    let enhancedResults := analyzeEmailsWithSnippets enhancedOut followUpBatch
    (applyUpdates initialResults (lowIdx.zip (enhancedResults.map markFollowUp)),
     some followUpBatch)

/- ### Token accounting in `runHybridCleanupAnalysis` / `runTraditionalCleanupAnalysis` -/

/-- The engine's running token totals.  Numeric fields are `Option Nat`
(`none` = NaN-poisoned, as JavaScript arithmetic on `undefined` would
produce); `requestCount` is always a number. -/
structure TokenTotals where
  inputTokens : Option Nat
  outputTokens : Option Nat
  totalTokens : Option Nat
  requestCount : Nat
deriving Repr, DecidableEq, Inhabited

/-- JavaScript `+` on possibly-undefined numbers. -/
def jsAdd : Option Nat → Option Nat → Option Nat
  | some a, some b => some (a + b)
  | _, _ => none

/-- JavaScript `*` of a possibly-undefined number by an array length. -/
def jsMul : Option Nat → Nat → Option Nat
  | some a, n => some (a * n)
  | none, _ => none

/-- The per-batch token aggregation of the analysis engines:
`if (batchResults.length > 0 && batchResults[0].tokenUsage) { totals +=
batchResults[0].tokenUsage.* * batchResults.length; requestCount++ }`. -/
def aggregateBatchTokens (tot : TokenTotals) (batchResults : List AnalysisResult) :
    TokenTotals :=
  match batchResults with
  | [] => tot
  | r :: _ =>
    match r.tokenUsage with
    | none => tot
    | some u =>
      { inputTokens := jsAdd tot.inputTokens (jsMul u.inputTokens batchResults.length),
        outputTokens := jsAdd tot.outputTokens (jsMul u.outputTokens batchResults.length),
        totalTokens := jsAdd tot.totalTokens (jsMul u.totalTokens batchResults.length),
        requestCount := tot.requestCount + 1 }

/- ### RateLimiter (`src/utils/rateLimiter.ts`)

Sequential (non-interleaved) `waitIfNeeded()` calls.  The clock is `Int`
milliseconds; the only time that passes during a call is its sleeps, and an
arbitrary nonnegative gap elapses between one call's return and the next
call's entry. -/

structure RateLimiterConfig where
  maxRequests : Nat
  windowMs : Int
  minDelayMs : Int
deriving Repr, DecidableEq

/-- `this.requests = this.requests.filter(time => now - time < windowMs)`. -/
def pruneWindow (cfg : RateLimiterConfig) (now : Int) (reqs : List Int) : List Int :=
  reqs.filter (fun t => now - t < cfg.windowMs)

/-- The window-overflow wait `windowMs - (now - oldestRequest) + 100`. -/
def windowWaitTime (cfg : RateLimiterConfig) (now oldest : Int) : Int :=
  cfg.windowMs - (now - oldest) + 100

/-- The clock after the window-overflow sleep (the first `if` block of
`waitIfNeeded`), measured from the pre-sleep `now` exactly as the source. -/
def afterWindowWait (cfg : RateLimiterConfig) (now : Int) (reqs' : List Int) : Int :=
  if reqs'.length ≥ cfg.maxRequests then
    match reqs'.min? with
    | some oldest =>
      if windowWaitTime cfg now oldest > 0 then now + windowWaitTime cfg now oldest
      else now
    | none => now  -- JS `Math.min()` with no arguments; reachable only when maxRequests = 0
  else now

/-- The `Date.now()` at which the call records its request, assuming only the
sleeps advance the clock: the window-overflow sleep followed by the
minimum-delay sleep, the latter also measured from the pre-sleep `now`. -/
def recordTime (cfg : RateLimiterConfig) (now : Int) (reqs' : List Int) : Int :=
  match reqs'.max? with
  | some lastRequest =>
    if now - lastRequest < cfg.minDelayMs then
      afterWindowWait cfg now reqs' + (cfg.minDelayMs - (now - lastRequest))
    else afterWindowWait cfg now reqs'
  | none => afterWindowWait cfg now reqs'

/-- One `waitIfNeeded()` call at clock time `now`: prune, wait, record.
Returns the recorded timestamp and the new request list. -/
def waitIfNeeded (cfg : RateLimiterConfig) (now : Int) (reqs : List Int) :
    Int × List Int :=
  let reqs' := pruneWindow cfg now reqs
  let t := recordTime cfg now reqs'
  (t, reqs' ++ [t])

/-- A sequential trace of calls: each entry of `gaps` is the (nonnegative)
clock advance between the previous recorded timestamp and the next call's
entry.  Returns all recorded timestamps in call order. -/
def runCalls (cfg : RateLimiterConfig) : List Int → Int → List Int → List Int
  | [], _, _ => []
  | gap :: gaps, time, reqs =>
    let now := time + gap
    let p := waitIfNeeded cfg now reqs
    p.1 :: runCalls cfg gaps p.1 p.2

/-- Number of recorded timestamps inside the sliding half-open window
`[a, a + windowMs)`. -/
def windowCount (cfg : RateLimiterConfig) (a : Int) (trace : List Int) : Nat :=
  (trace.filter (fun t => a ≤ t ∧ t < a + cfg.windowMs)).length

/-- State invariant between sequential calls: the recorded list is sorted with
min-delay spacing, all entries lie in the past, and every sliding window holds
at most `maxRequests` entries. -/
def RLInv (cfg : RateLimiterConfig) (time : Int) (reqs : List Int) : Prop :=
  reqs.Pairwise (· ≤ ·)
  ∧ reqs.Pairwise (fun x y => x + cfg.minDelayMs ≤ y)
  ∧ (∀ x ∈ reqs, x ≤ time)
  ∧ (∀ a : Int, windowCount cfg a reqs ≤ cfg.maxRequests)

/- ### The sync route's local classifier `EmailSyncer.classifyEmail`
(`src/app/api/sync/route.ts`). -/

/-- `s.toLowerCase()` (ASCII, which covers every keyword the classifier
tests). -/
def jsToLower (s : String) : String :=
  ⟨s.toList.map Char.toLower⟩

/-- Does `l` start with `pat`? -/
def listHasPrefix : List Char → List Char → Bool
  | _, [] => true
  | [], _ :: _ => false
  | c :: cs, p :: ps => c = p && listHasPrefix cs ps

/-- Does `l` contain `pat` as a contiguous run? -/
def listHasInfix (pat : List Char) : List Char → Bool
  | [] => listHasPrefix [] pat
  | c :: rest => listHasPrefix (c :: rest) pat || listHasInfix pat rest

/-- `s.includes(sub)`. -/
def jsIncludes (s sub : String) : Bool :=
  listHasInfix sub.toList s.toList

/-- The classifier's first guard: clear newsletter indicators (explicit
marketing), verbatim from the source. -/
def matchesNewsletterIndicators (subject fromField senderEmail : String) : Bool :=
  jsIncludes subject "newsletter" || jsIncludes subject "unsubscribe"
    || jsIncludes fromField "newsletter" || jsIncludes senderEmail "newsletter"
    || jsIncludes senderEmail "marketing" || jsIncludes subject "weekly digest"
    || jsIncludes subject "monthly update"

/-- The classifier's second guard: clear promotional indicators. -/
def matchesPromotionalIndicators (subject : String) : Bool :=
  jsIncludes subject "sale" || jsIncludes subject "discount"
    || jsIncludes subject "offer" || jsIncludes subject "deal"
    || jsIncludes subject "% off" || jsIncludes subject "free shipping"
    || jsIncludes subject "limited time" || jsIncludes subject "expires today"
    || jsIncludes subject "last chance"

/-- The classifier's third guard: social media notification indicators. -/
def matchesSocialIndicators (fromField senderEmail : String) : Bool :=
  jsIncludes fromField "facebook" || jsIncludes fromField "twitter"
    || jsIncludes fromField "linkedin" || jsIncludes fromField "instagram"
    || jsIncludes fromField "tiktok" || jsIncludes fromField "snapchat"
    || jsIncludes fromField "youtube" || jsIncludes fromField "pinterest"
    || jsIncludes fromField "reddit" || jsIncludes senderEmail "facebook.com"
    || jsIncludes senderEmail "twitter.com" || jsIncludes senderEmail "linkedin.com"
    || jsIncludes senderEmail "instagram.com" || jsIncludes senderEmail "tiktok.com"
    || jsIncludes senderEmail "youtube.com"

/-- `EmailSyncer.classifyEmail({subject, from, senderEmail})`: lower-case the
three fields, test the newsletter guard, then the promotional guard, then the
social guard, first match wins, otherwise `unknown`. -/
def classifyEmail (subject fromField senderEmail : String) : String :=
  let subj := jsToLower subject
  let frm := jsToLower fromField
  let se := jsToLower senderEmail
  if matchesNewsletterIndicators subj frm se then "newsletter"
  else if matchesPromotionalIndicators subj then "promotional"
  else if matchesSocialIndicators frm se then "social"
  else "unknown"

/-- A "noreply"-style sender address, in the spec's sense. -/
def isNoreplyStyle (senderEmail : String) : Bool :=
  jsIncludes (jsToLower senderEmail) "noreply"
    || jsIncludes (jsToLower senderEmail) "no-reply"
    || jsIncludes (jsToLower senderEmail) "donotreply"

/- ### `GmailAnalyzer.generateReport` (`src/app/api/analyze/route.ts`)

The newsletter-sender aggregation that the source interleaves into the same
loop writes a disjoint accumulator (the sender map) and is omitted: it does
not interact with any of the claimed quantities. -/

/-- One element of the `analyses` array handed to `generateReport`:
`{emailId, ...analysis, originalEmail}`. -/
structure ReportInput where
  emailId : String
  category : String
  cleanupRecommendation : String
  reasoning : String
  confidence : String
  originalEmail : EmailData
deriving Repr, DecidableEq, Inhabited

/-- One entry of the deletion or keep candidate lists. -/
structure CandidateEntry where
  id : String
  subject : String
  «from» : String
  date : Int
  size : Nat
  category : String
  reasoning : String
  confidence : String
deriving Repr, DecidableEq, Inhabited

/-- The candidate entry pushed for one analysis. -/
def mkCandidate (a : ReportInput) : CandidateEntry :=
  { id := a.originalEmail.id, subject := a.originalEmail.subject,
    «from» := a.originalEmail.«from», date := a.originalEmail.date,
    size := a.originalEmail.size, category := a.category,
    reasoning := a.reasoning, confidence := a.confidence }

/-- `recommendation ∈ {delete, archive}`. -/
def isDeleteOrArchive (a : ReportInput) : Bool :=
  a.cleanupRecommendation = "delete" ∨ a.cleanupRecommendation = "archive"

/-- `recommendation = keep`. -/
def isKeep (a : ReportInput) : Bool :=
  a.cleanupRecommendation = "keep"

/-- Insert into a date-descending list (`sort((a, b) => date(b) - date(a))`). -/
def insertByDateDesc (c : CandidateEntry) : List CandidateEntry → List CandidateEntry
  | [] => [c]
  | d :: rest => if d.date < c.date then c :: d :: rest else d :: insertByDateDesc c rest

/-- Date-descending sort of a candidate list. -/
def sortByDateDesc (l : List CandidateEntry) : List CandidateEntry :=
  l.foldr insertByDateDesc []

/-- The summary block of a cleanup report. -/
structure ReportSummary where
  totalEmails : Nat
  deletionCandidates : Nat
  keepCandidates : Nat
  totalSize : Nat
  potentialSavings : Nat
deriving Repr, DecidableEq, Inhabited

/-- A cleanup report (config echo, timestamps and the sender map omitted). -/
structure Report where
  summary : ReportSummary
  deletionCandidates : List CandidateEntry
  keepCandidates : List CandidateEntry
deriving Repr, DecidableEq, Inhabited

/-- `GmailAnalyzer.generateReport(analyses, config)`: delete- and
archive-recommended analyses join the deletion-candidate list and their sizes
the potential savings, keep-recommended analyses join the keep list; both
lists are sorted date-descending; any other recommendation value joins
neither list. -/
def generateReport (analyses : List ReportInput) : Report :=
  let deletionCandidates :=
    sortByDateDesc ((analyses.filter isDeleteOrArchive).map mkCandidate)
  let keepCandidates := sortByDateDesc ((analyses.filter isKeep).map mkCandidate)
  let totalSize := (analyses.map (fun a => a.originalEmail.size)).sum
  let potentialSavings :=
    ((analyses.filter isDeleteOrArchive).map (fun a => a.originalEmail.size)).sum
  { summary :=
      { totalEmails := analyses.length,
        deletionCandidates := deletionCandidates.length,
        keepCandidates := keepCandidates.length,
        totalSize := totalSize,
        potentialSavings := potentialSavings },
    deletionCandidates := deletionCandidates,
    keepCandidates := keepCandidates }

/- ### The sync engine (`EmailSyncer.syncEmails`, `src/app/api/sync/route.ts`)
and its persistence helpers (`src/lib/database.ts`)

The Gmail listing (`getAllMessageIds`) is abstracted as the pre-supplied
`messageIds` (a listing failure propagates through the same outer catch and
is outside the claims' scope); `processBatch` is abstracted as the oracle
`fetch`; `getSyncDateRange` — which reads the wall clock — as the
pre-computed `SyncRange`.  Prisma rows carry a `lastSynced` bookkeeping
timestamp that is rewritten on every upsert; it is excluded from the model,
whose store holds the message data itself. -/

/-- One email as handled by the sync route (threadId/toAddress/labels/
snippet/attachment fields ride along unchanged and are omitted). -/
structure SyncEmailData where
  gmailId : String
  subject : String
  senderEmail : String
  senderName : String
  date : Int
  size : Nat
  category : String
deriving Repr, DecidableEq, Inhabited

/-- One row of the local `emails` table. -/
structure StoredEmail where
  userEmail : String
  email : SyncEmailData
deriving Repr, DecidableEq, Inhabited

/-- `prisma.email.upsert({where: {gmailId}, update, create})`: update the
first row with this `gmailId` in place (the update does not change the row's
owner, since the spread payload has no `userEmail`), or append a new row
owned by `u`. -/
def upsertEmail (u : String) (e : SyncEmailData) : List StoredEmail → List StoredEmail
  | [] => [⟨u, e⟩]
  | r :: rest =>
    if r.email.gmailId = e.gmailId then ⟨r.userEmail, e⟩ :: rest
    else r :: upsertEmail u e rest

/-- `createOrUpdateEmails(userEmail, emails)`: one upsert per email, in
order, inside a transaction. -/
def createOrUpdateEmails (u : String) (emails : List SyncEmailData)
    (store : List StoredEmail) : List StoredEmail :=
  emails.foldl (fun st e => upsertEmail u e st) store

/-- The sync's effective date range (`getSyncDateRange`): `startDate = none`
for an unbounded (full) sync. -/
structure SyncRange where
  startDate : Option Int
  endDate : Int
deriving Repr, DecidableEq, Inhabited

/-- The `deleteMany` where-clause of `cleanupEmailsInRange`: for a full sync
every row of the user not in the valid-ID list; for a partial sync only rows
dated inside `[startDate, endDate]` (Prisma `gte`/`lte` are inclusive). -/
def cleanupMatches (u : String) (validGmailIds : List String) (range : SyncRange)
    (r : StoredEmail) : Bool :=
  match range.startDate with
  | none => r.userEmail = u ∧ r.email.gmailId ∉ validGmailIds
  | some s => r.userEmail = u ∧ s ≤ r.email.date ∧ r.email.date ≤ range.endDate
      ∧ r.email.gmailId ∉ validGmailIds

/-- `cleanupEmailsInRange(userEmail, validGmailIds, syncRange)`: the
remaining store and the deleted-row count. -/
def cleanupEmailsInRange (u : String) (validGmailIds : List String)
    (range : SyncRange) (store : List StoredEmail) : List StoredEmail × Nat :=
  (store.filter (fun r => ¬ cleanupMatches u validGmailIds range r),
   (store.filter (fun r => cleanupMatches u validGmailIds range r)).length)

/-- A sync-session row (timestamps reduced to presence flags). -/
structure SessionState where
  status : String
  errorMessage : Option String
  totalEmails : Option Nat
  emailsProcessed : Option Nat
  currentBatch : Option Nat
  totalBatches : Option Nat
  completedAt : Bool
deriving Repr, DecidableEq, Inhabited

/-- The legacy per-user `SyncStatus` row. -/
structure LegacyStatus where
  syncInProgress : Bool
  lastSync : Bool
  totalEmails : Option Nat
  errorMessage : Option String
deriving Repr, DecidableEq, Inhabited

/-- The durable state `syncEmails` touches: the user's email rows, the
current sync session and the legacy status row. -/
structure SyncWorld where
  store : List StoredEmail
  session : SessionState
  legacy : LegacyStatus
deriving Repr, DecidableEq, Inhabited

/-- The object a non-throwing `syncEmails` resolves with.  `sessionId` is
`Option` because the zero-ID path's literal carries no `sessionId` field. -/
structure SyncRunResult where
  success : Bool
  totalEmails : Nat
  newEmails : Nat
  deletedEmails : Nat
  sessionId : Option String
deriving Repr, DecidableEq, Inhabited

/-- A fresh sync session (`createSyncSession`). -/
def initialSession : SessionState :=
  ⟨"in_progress", none, none, none, none, none, false⟩

/-- `messageIds.slice(i, i + batchSize)` chunking, fuel-indexed to keep the
recursion structural (each step consumes at least one element when
`1 ≤ n`, so `l.length` fuel suffices). -/
def chunkFuel (n : Nat) : Nat → List String → List (List String)
  | 0, _ => []
  | _, [] => []
  | Nat.succ fuel, l => l.take n :: chunkFuel n fuel (l.drop n)

/-- Partition the message IDs into fixed-size batches. -/
def chunkList (n : Nat) (l : List String) : List (List String) :=
  chunkFuel n l.length l

/-- The batch loop of `syncEmails`: fetch the batch (`processBatch`,
abstracted as `fetch`), persist it immediately, update the session progress
counters and the legacy status; on a batch error mark the session failed
(recording the progress so far) and rethrow. -/
def syncBatchLoop (u : String)
    (fetch : List String → Except String (List SyncEmailData)) :
    List (List String) → Nat → Nat → List String → SyncWorld →
    SyncWorld × Except String (List String × Nat)
  | [], _, total, processed, w => (w, .ok (processed, total))
  | batch :: rest, bn, total, processed, w =>
    match fetch batch with
    | .ok batchEmails =>
      let total' := total + batchEmails.length
      let w' : SyncWorld :=
        { store := createOrUpdateEmails u batchEmails w.store,
          session := { w.session with
            currentBatch := some bn,
            emailsProcessed := some total' },
          legacy := { w.legacy with
            syncInProgress := true,
            totalEmails := some total' } }
      syncBatchLoop u fetch rest (bn + 1) total'
        (processed ++ batchEmails.map (fun e => e.gmailId)) w'
    | .error e =>
      ({ w with session := { w.session with
          status := "failed",
          errorMessage := some e,
          emailsProcessed := some total } },
       .error e)

/-- The tail of `syncEmails` after the batch loop: the outer catch (session
and legacy marked failed, error rethrown) or the success path (orphan
cleanup in range, session completed, legacy finalised, summary with the
session ID returned). -/
def finishSync (u sessionId : String) (syncRange : SyncRange)
    (outcome : SyncWorld × Except String (List String × Nat)) :
    SyncWorld × Except String SyncRunResult :=
  match outcome with
  | (w3, .error e) =>
    ({ w3 with
        session := { w3.session with
          status := "failed",
          errorMessage := some e },
        legacy := { w3.legacy with
          syncInProgress := false,
          errorMessage := some e } },
     .error e)
  | (w3, .ok (processed, total)) =>
    let cleaned := cleanupEmailsInRange u processed syncRange w3.store
    ({ store := cleaned.1,
       session := { w3.session with
         status := "completed",
         completedAt := true },
       legacy := { w3.legacy with
         syncInProgress := false,
         lastSync := true,
         totalEmails := some total,
         errorMessage := none } },
     .ok { success := true,
           totalEmails := total,
           newEmails := total,
           deletedEmails := cleaned.2,
           sessionId := some sessionId })

/-- `EmailSyncer.syncEmails(options)`: create a session, mark the legacy
status in-progress (clearing its error), return a zero summary (without a
session ID) when the listing is empty, otherwise run the batch loop over
100-ID batches; on success reconcile orphans in range, complete the session
and return the summary with the session ID; on a batch error mark session
and legacy failed and rethrow. -/
def syncEmails (u sessionId : String)
    (fetch : List String → Except String (List SyncEmailData))
    (syncRange : SyncRange) (messageIds : List String) (w0 : SyncWorld) :
    SyncWorld × Except String SyncRunResult :=
  let w1 : SyncWorld :=
    { w0 with
      session := initialSession,
      legacy := { w0.legacy with syncInProgress := true, errorMessage := none } }
  if messageIds.length = 0 then
    ({ w1 with
        session := { w1.session with
          status := "completed",
          totalEmails := some 0,
          completedAt := true },
        legacy := { w1.legacy with
          syncInProgress := false,
          lastSync := true,
          totalEmails := some 0 } },
     .ok { success := true,
           totalEmails := 0,
           newEmails := 0,
           deletedEmails := 0,
           sessionId := none })
  else
    let batches := chunkList 100 messageIds
    let w2 : SyncWorld := { w1 with
      session := { w1.session with
        totalEmails := some messageIds.length,
        totalBatches := some batches.length } }
    finishSync u sessionId syncRange (syncBatchLoop u fetch batches 1 0 [] w2)

/-- First stored row carrying a given remote `gmailId` — the row Prisma's
`upsert` keyed on `gmailId` addresses. -/
def lookupFirst (g : String) (st : List StoredEmail) : Option StoredEmail :=
  st.find? (fun r => r.email.gmailId == g)

theorem findById_of_no_null {l : List Json} (t : Int) (h : ∀ r ∈ l, r ≠ Json.null) :
    findById l t = .ok (l.find? (fun r => r.fieldEqNum "id" t)) := by
  induction l with
  | nil => rfl
  | cons r rest ih =>
    have hr : r ≠ Json.null := h r (by simp)
    have hrest : ∀ x ∈ rest, x ≠ Json.null := fun x hx => h x (by simp [hx])
    unfold findById
    cases r with
    | null => exact absurd rfl hr
    | bool b => simp [List.find?]; split <;> simp_all
    | num m => simp [List.find?]; split <;> simp_all
    | str s => simp [List.find?]; split <;> simp_all
    | arr es => simp [List.find?]; split <;> simp_all
    | obj fs => simp [List.find?]; split <;> simp_all

theorem entryAt_of_no_null {l : List Json} (i : Nat) (h : ∀ r ∈ l, r ≠ Json.null) :
    entryAt l i = .ok (entryAtPure l i) := by
  unfold entryAt entryAtPure
  rw [findById_of_no_null _ h]

theorem extractLoop_of_no_null {l : List Json} (is : List Nat)
    (h : ∀ r ∈ l, r ≠ Json.null) :
    extractLoop l is = .ok (is.map (entryAtPure l)) := by
  induction is with
  | nil => rfl
  | cons i is ih =>
    unfold extractLoop
    rw [entryAt_of_no_null i h, ih]
    rfl

theorem extractLoop_length {l : List Json} {is : List Nat} {res : List Json}
    (h : extractLoop l is = .ok res) : res.length = is.length := by
  induction is generalizing res with
  | nil => simp only [extractLoop] at h; cases h; rfl
  | cons i is ih =>
    unfold extractLoop at h
    cases he : entryAt l i with
    | error e => rw [he] at h; cases h
    | ok r =>
      rw [he] at h
      cases hrest : extractLoop l is with
      | error e => rw [hrest] at h; cases h
      | ok rest =>
        rw [hrest] at h
        cases h
        simp [ih hrest]

theorem parseBatchAnalysisResult_length (response : String) (n : Nat) :
    (parseBatchAnalysisResult response n).length = n := by
  unfold parseBatchAnalysisResult
  cases hp : jsonParse (jsTrim (stripFences response)) with
  | none => simp
  | some j =>
    cases j with
    | arr l =>
      cases he : extractLoop l (List.range n) with
      | error e => simp [he]
      | ok res => simpa [he] using extractLoop_length he
    | null => simp
    | bool b => simp
    | num m => simp
    | str s => simp
    | obj fs => simp

/-- **C3** (AI batch-response parse totality): for every response string and
every `expectedCount`, `parseBatchAnalysisResult` returns exactly
`expectedCount` results and never throws; a fence-wrapped response has its
fences stripped before parsing, a non-array parse (single JSON object) is
broadcast to all positions, a parse failure yields the default keep/low
result for every position, and an array is matched per position by
`id == position+1`, falling back to the positional index, then to the
default result. -/
theorem C3_parse_totality (response : String) (n : Nat) :
    (parseBatchAnalysisResult response n).length = n
    ∧ (jsonParse (jsTrim (stripFences response)) = none →
        parseBatchAnalysisResult response n = List.replicate n getDefaultAnalysis)
    ∧ (∀ j, jsonParse (jsTrim (stripFences response)) = some j → (∀ l, j ≠ Json.arr l) →
        parseBatchAnalysisResult response n = List.replicate n j)
    ∧ (∀ l, jsonParse (jsTrim (stripFences response)) = some (Json.arr l) →
        (∀ r ∈ l, r ≠ Json.null) →
        ∀ i, i < n →
          (∀ r, l.find? (fun r => r.fieldEqNum "id" ((i : Int) + 1)) = some r →
            (parseBatchAnalysisResult response n).getD i Json.null = r.removeId)
          ∧ (l.find? (fun r => r.fieldEqNum "id" ((i : Int) + 1)) = none →
              ((l.getD i Json.null).truthy = true →
                (parseBatchAnalysisResult response n).getD i Json.null
                  = (l.getD i Json.null).removeId)
              ∧ ((l.getD i Json.null).truthy = false →
                  (parseBatchAnalysisResult response n).getD i Json.null
                    = getDefaultAnalysis))) := by
  refine ⟨parseBatchAnalysisResult_length response n, ?_, ?_, ?_⟩
  · intro hp
    unfold parseBatchAnalysisResult
    rw [hp]
  · intro j hp hnotarr
    unfold parseBatchAnalysisResult
    rw [hp]
    cases j with
    | arr l => exact absurd rfl (hnotarr l)
    | null => rfl
    | bool b => rfl
    | num m => rfl
    | str s => rfl
    | obj fs => rfl
  · intro l hp hnn i hi
    have hloop := extractLoop_of_no_null (List.range n) hnn
    have hres : parseBatchAnalysisResult response n = (List.range n).map (entryAtPure l) := by
      unfold parseBatchAnalysisResult
      simp only [hp, hloop]
    have hget : (parseBatchAnalysisResult response n).getD i Json.null = entryAtPure l i := by
      rw [hres]
      rw [List.getD_eq_getElem _ _ (by simpa using hi)]
      simp
    constructor
    · intro r hfind
      rw [hget]
      have htr : r.truthy = true := by
        have hmem := List.find?_some hfind
        simp only [Json.fieldEqNum] at hmem
        cases r with
        | null => simp [Json.getField] at hmem
        | bool b => simp [Json.getField] at hmem
        | num m => simp [Json.getField] at hmem
        | str s => simp [Json.getField] at hmem
        | arr es => simp [Json.truthy]
        | obj fs => simp [Json.truthy]
      simp [entryAtPure, hfind, htr]
    · intro hfind
      constructor
      · intro htr
        rw [hget]
        simp only [List.getD, List.get?_eq_getElem?] at htr
        simp [entryAtPure, hfind, htr]
      · intro htr
        rw [hget]
        simp only [List.getD, List.get?_eq_getElem?] at htr
        simp [entryAtPure, hfind, htr]

/-- Witness for C3 at concrete inputs: a fence-wrapped array whose single
entry carries `id = 2` fills position 1 by id-match and position 0 by the
positional fallback, while position 2 (beyond the array) gets the default;
invalid JSON yields all defaults; a single object is broadcast unchanged. -/
theorem C3_parse_totality_witness :
    (parseBatchAnalysisResult "```json\n[\x7b\"id\":2,\"category\":\"promotional\"\x7d]\n```" 3).length = 3
    ∧ (parseBatchAnalysisResult "```json\n[\x7b\"id\":2,\"category\":\"promotional\"\x7d]\n```" 3).getD 1 Json.null
        = Json.obj [("category", Json.str "promotional")]
    ∧ (parseBatchAnalysisResult "```json\n[\x7b\"id\":2,\"category\":\"promotional\"\x7d]\n```" 3).getD 2 Json.null
        = getDefaultAnalysis
    ∧ parseBatchAnalysisResult "not valid json" 3 = List.replicate 3 getDefaultAnalysis
    ∧ parseBatchAnalysisResult "\x7b\"category\":\"spam\"\x7d" 2
        = List.replicate 2 (Json.obj [("category", Json.str "spam")]) := by
  have h := C3_parse_totality "```json\n[\x7b\"id\":2,\"category\":\"promotional\"\x7d]\n```" 3
  have h2 := C3_parse_totality "not valid json" 3
  have h3 := C3_parse_totality "\x7b\"category\":\"spam\"\x7d" 2
  have hnn : ∀ r ∈ [Json.obj [("id", Json.num 2), ("category", Json.str "promotional")]],
      r ≠ Json.null := by
    intro r hr
    rw [List.mem_singleton] at hr
    subst hr
    intro hc
    cases hc
  refine ⟨h.1, ?_, ?_, ?_, ?_⟩
  · have := (h.2.2.2 [Json.obj [("id", Json.num 2), ("category", Json.str "promotional")]]
      (by rfl) hnn 1 (by decide)).1
      (Json.obj [("id", Json.num 2), ("category", Json.str "promotional")]) (by rfl)
    rw [this]
    rfl
  · exact ((h.2.2.2 [Json.obj [("id", Json.num 2), ("category", Json.str "promotional")]]
      (by rfl) hnn 2 (by decide)).2 (by rfl)).2 (by rfl)
  · exact h2.2.1 (by rfl)
  · have := h3.2.2.1 (Json.obj [("category", Json.str "spam")]) (by rfl) (fun l hc => by cases hc)
    exact this

theorem analyzeBatchEmailsWithClaude_length (outcome : AICallOutcome)
    (emails : List EmailData) :
    (analyzeBatchEmailsWithClaude outcome emails).length = emails.length := by
  cases outcome with
  | success text i o => simp [analyzeBatchEmailsWithClaude, parseBatchAnalysisResult_length]
  | failure => simp [analyzeBatchEmailsWithClaude]

theorem analyzeEmailsWithSnippets_length (outcome : AICallOutcome)
    (emails : List EmailData) :
    (analyzeEmailsWithSnippets outcome emails).length = emails.length := by
  cases outcome with
  | success text i o => simp [analyzeEmailsWithSnippets, parseBatchAnalysisResult_length]
  | failure => simp [analyzeEmailsWithSnippets]

theorem applyUpdates_length (rs : List AnalysisResult)
    (ups : List (Nat × AnalysisResult)) :
    (applyUpdates rs ups).length = rs.length := by
  induction ups generalizing rs with
  | nil => rfl
  | cons p ups ih => simp [applyUpdates] at ih ⊢; rw [ih, List.length_set]

theorem applyUpdates_getD_not_mem {rs : List AnalysisResult}
    {ups : List (Nat × AnalysisResult)} {i : Nat}
    (h : i ∉ ups.map Prod.fst) (d : AnalysisResult) :
    (applyUpdates rs ups).getD i d = rs.getD i d := by
  induction ups generalizing rs with
  | nil => rfl
  | cons p ups ih =>
    simp only [List.map_cons, List.mem_cons, not_or] at h
    show (applyUpdates (rs.set p.1 p.2) ups).getD i d = rs.getD i d
    rw [ih h.2]
    simp only [List.getD]
    rw [List.get?_set_ne _ _ (fun hc => h.1 hc.symm)]

theorem applyUpdates_getD_mem {rs : List AnalysisResult}
    {ups : List (Nat × AnalysisResult)} {j : Nat} {v : AnalysisResult}
    (hnd : (ups.map Prod.fst).Nodup) (hmem : (j, v) ∈ ups) (hj : j < rs.length)
    (d : AnalysisResult) :
    (applyUpdates rs ups).getD j d = v := by
  induction ups generalizing rs with
  | nil => cases hmem
  | cons p ups ih =>
    simp only [List.map_cons, List.nodup_cons] at hnd
    rcases List.mem_cons.mp hmem with heq | htail
    · subst heq
      show (applyUpdates (rs.set j v) ups).getD j d = v
      rw [applyUpdates_getD_not_mem hnd.1 d]
      simp only [List.getD]
      rw [List.get?_set_eq_of_lt _ hj]
      rfl
    · exact ih hnd.2 htail (by simpa [List.length_set] using hj)

theorem lowConfidenceIndices_nodup (rs : List AnalysisResult) :
    (lowConfidenceIndices rs).Nodup :=
  (List.nodup_range _).filter _

theorem lowConfidenceIndices_lt {rs : List AnalysisResult} {i : Nat}
    (h : i ∈ lowConfidenceIndices rs) : i < rs.length := by
  have := List.mem_filter.mp h
  simpa using this.1

theorem lowConfidenceIndices_mem {rs : List AnalysisResult} {i : Nat} :
    i ∈ lowConfidenceIndices rs ↔
      i < rs.length ∧ isLowConfidence (rs.getD i default) = true := by
  simp [lowConfidenceIndices, List.mem_filter]

/-- **C1** (progressive escalation splice): writing `S` for the positions the
initial pass reports with confidence `low` and `flagged` for the emails at
those positions, the final result list agrees with the enhanced (snippet)
pass on exactly the flagged subset at every position in `S` — same body,
token usage carried over with the `followUpRequest` marker set — and with
the unmodified initial-pass result at every position outside `S`; when `S`
is empty the initial results are returned unchanged and no enhanced call is
made (the call trace is `none`). -/
theorem C1_progressive_escalation (initialOut enhancedOut : AICallOutcome)
    (emails : List EmailData) :
    ∀ S flagged final call,
      S = lowConfidenceIndices (analyzeBatchEmailsWithClaude initialOut emails) →
      flagged = S.map (fun i => emails.getD i default) →
      (final, call) = analyzeEmailsProgressively initialOut enhancedOut emails →
      final.length = emails.length
      ∧ (∀ k, k < S.length →
          (final.getD (S.getD k 0) default).body
              = ((analyzeEmailsWithSnippets enhancedOut flagged).getD k default).body
          ∧ (final.getD (S.getD k 0) default).tokenUsage
              = some { spreadUsage
                  ((analyzeEmailsWithSnippets enhancedOut flagged).getD k default).tokenUsage
                  with followUpRequest := true })
      ∧ (∀ i, i < emails.length → i ∉ S →
          final.getD i default
            = (analyzeBatchEmailsWithClaude initialOut emails).getD i default)
      ∧ (S = [] → final = analyzeBatchEmailsWithClaude initialOut emails ∧ call = none)
      ∧ (S ≠ [] → call = some flagged) := by
  intro S flagged final call hS hflag hpair
  by_cases hemp : S = []
  · have hpair' : (final, call)
        = (analyzeBatchEmailsWithClaude initialOut emails, none) := by
      rw [hpair]
      simp only [analyzeEmailsProgressively]
      rw [← hS, if_pos hemp]
    have hfin : final = analyzeBatchEmailsWithClaude initialOut emails :=
      congrArg Prod.fst hpair'
    have hcall : call = none := congrArg Prod.snd hpair'
    refine ⟨?_, ?_, ?_, fun _ => ⟨hfin, hcall⟩, fun hne => absurd hemp hne⟩
    · rw [hfin]; exact analyzeBatchEmailsWithClaude_length _ _
    · intro k hk; rw [hemp] at hk; simp at hk
    · intro i _ _; rw [hfin]
  · have hpair' : (final, call)
        = (applyUpdates (analyzeBatchEmailsWithClaude initialOut emails)
            (S.zip ((analyzeEmailsWithSnippets enhancedOut flagged).map markFollowUp)),
           some flagged) := by
      rw [hpair]
      simp only [analyzeEmailsProgressively]
      rw [← hS, if_neg hemp, ← hflag]
    have hfin : final = applyUpdates (analyzeBatchEmailsWithClaude initialOut emails)
        (S.zip ((analyzeEmailsWithSnippets enhancedOut flagged).map markFollowUp)) :=
      congrArg Prod.fst hpair'
    have hcall : call = some flagged := congrArg Prod.snd hpair'
    have hlenI : (analyzeBatchEmailsWithClaude initialOut emails).length = emails.length :=
      analyzeBatchEmailsWithClaude_length _ _
    have hlenE : (analyzeEmailsWithSnippets enhancedOut flagged).length = S.length := by
      rw [analyzeEmailsWithSnippets_length, hflag, List.length_map]
    have hfst : (S.zip ((analyzeEmailsWithSnippets enhancedOut flagged).map markFollowUp)).map
        Prod.fst = S :=
      List.map_fst_zip _ _ (by rw [List.length_map, hlenE])
    refine ⟨?_, ?_, ?_, fun he => absurd he hemp, fun _ => hcall⟩
    · rw [hfin, applyUpdates_length]; exact hlenI
    · intro k hk
      have hkE : k < (analyzeEmailsWithSnippets enhancedOut flagged).length := by omega
      have hkZ : k < (S.zip ((analyzeEmailsWithSnippets enhancedOut flagged).map
          markFollowUp)).length := by
        rw [List.length_zip, List.length_map]; omega
      have hzip : (S.zip ((analyzeEmailsWithSnippets enhancedOut flagged).map
          markFollowUp))[k] = (S[k], markFollowUp (analyzeEmailsWithSnippets enhancedOut
            flagged)[k]) := by
        rw [List.getElem_zip, List.getElem_map]
      have hmem : (S[k], markFollowUp (analyzeEmailsWithSnippets enhancedOut flagged)[k])
          ∈ S.zip ((analyzeEmailsWithSnippets enhancedOut flagged).map markFollowUp) := by
        rw [← hzip]; exact List.getElem_mem _
      have hSk : S[k] ∈ S := List.getElem_mem _
      have hball : ∀ i ∈ S, i < (analyzeBatchEmailsWithClaude initialOut emails).length := by
        intro i hi
        rw [hS] at hi
        exact lowConfidenceIndices_lt hi
      have hlt := hball S[k] hSk
      have hget : final.getD S[k] default
          = markFollowUp (analyzeEmailsWithSnippets enhancedOut flagged)[k] := by
        rw [hfin]
        exact applyUpdates_getD_mem (by rw [hfst]; rw [hS]; exact lowConfidenceIndices_nodup _)
          hmem hlt default
      have hgd : S.getD k 0 = S[k] := List.getD_eq_getElem _ _ hk
      have hgdE : (analyzeEmailsWithSnippets enhancedOut flagged).getD k default
          = (analyzeEmailsWithSnippets enhancedOut flagged)[k] :=
        List.getD_eq_getElem _ _ hkE
      rw [hgd, hget, hgdE]
      exact ⟨rfl, rfl⟩
    · intro i _ hiS
      rw [hfin, applyUpdates_getD_not_mem (by rw [hfst]; exact hiS)]

/-- Witness for C1: two emails, the initial pass reports position 1 (only)
as low confidence, the enhanced pass on the flagged singleton batch returns
a delete recommendation; the splice keeps position 0 and replaces position 1
with the marked enhanced result. -/
theorem C1_progressive_escalation_witness :
    (analyzeEmailsProgressively
        (.success "[\x7b\"id\":1,\"confidence\":\"high\"\x7d,\x7b\"id\":2,\"confidence\":\"low\"\x7d]" 100 20)
        (.success "[\x7b\"id\":1,\"cleanupRecommendation\":\"delete\",\"confidence\":\"high\"\x7d]" 300 30)
        [⟨"m1", "t1", "s1", "a@x", "p1", 0, 10⟩, ⟨"m2", "t2", "s2", "b@x", "p2", 0, 20⟩]).1.length = 2
    ∧ ((analyzeEmailsProgressively
        (.success "[\x7b\"id\":1,\"confidence\":\"high\"\x7d,\x7b\"id\":2,\"confidence\":\"low\"\x7d]" 100 20)
        (.success "[\x7b\"id\":1,\"cleanupRecommendation\":\"delete\",\"confidence\":\"high\"\x7d]" 300 30)
        [⟨"m1", "t1", "s1", "a@x", "p1", 0, 10⟩, ⟨"m2", "t2", "s2", "b@x", "p2", 0, 20⟩]).1.getD 1 default).tokenUsage
      = some ⟨some 300, some 30, some 330, true⟩
    ∧ ((analyzeEmailsProgressively
        (.success "[\x7b\"id\":1,\"confidence\":\"high\"\x7d,\x7b\"id\":2,\"confidence\":\"low\"\x7d]" 100 20)
        (.success "[\x7b\"id\":1,\"cleanupRecommendation\":\"delete\",\"confidence\":\"high\"\x7d]" 300 30)
        [⟨"m1", "t1", "s1", "a@x", "p1", 0, 10⟩, ⟨"m2", "t2", "s2", "b@x", "p2", 0, 20⟩]).1.getD 0 default)
      = (analyzeBatchEmailsWithClaude
        (.success "[\x7b\"id\":1,\"confidence\":\"high\"\x7d,\x7b\"id\":2,\"confidence\":\"low\"\x7d]" 100 20)
        [⟨"m1", "t1", "s1", "a@x", "p1", 0, 10⟩, ⟨"m2", "t2", "s2", "b@x", "p2", 0, 20⟩]).getD 0 default
    ∧ (analyzeEmailsProgressively
        (.success "[\x7b\"id\":1,\"confidence\":\"high\"\x7d,\x7b\"id\":2,\"confidence\":\"low\"\x7d]" 100 20)
        (.success "[\x7b\"id\":1,\"cleanupRecommendation\":\"delete\",\"confidence\":\"high\"\x7d]" 300 30)
        [⟨"m1", "t1", "s1", "a@x", "p1", 0, 10⟩, ⟨"m2", "t2", "s2", "b@x", "p2", 0, 20⟩]).2
      = some [⟨"m2", "t2", "s2", "b@x", "p2", 0, 20⟩] := by
  have h := C1_progressive_escalation
    (.success "[\x7b\"id\":1,\"confidence\":\"high\"\x7d,\x7b\"id\":2,\"confidence\":\"low\"\x7d]" 100 20)
    (.success "[\x7b\"id\":1,\"cleanupRecommendation\":\"delete\",\"confidence\":\"high\"\x7d]" 300 30)
    [⟨"m1", "t1", "s1", "a@x", "p1", 0, 10⟩, ⟨"m2", "t2", "s2", "b@x", "p2", 0, 20⟩]
    [1] [⟨"m2", "t2", "s2", "b@x", "p2", 0, 20⟩] _ _ (by rfl) (by rfl) rfl
  refine ⟨h.1, ?_, ?_, h.2.2.2.2 (by simp)⟩
  · exact ((h.2.1 0 (by decide)).2).trans (by rfl)
  · exact h.2.2.1 0 (by decide) (by decide)

theorem jsRound_mul_close (a n : Nat) (hn : 0 < n) :
    (2 * ((n : Int) * jsRound a n - a)).natAbs ≤ n := by
  unfold jsRound
  have hq : 2 * n * ((2 * a + n) / (2 * n)) + (2 * a + n) % (2 * n) = 2 * a + n :=
    Nat.div_add_mod _ _
  have hr : (2 * a + n) % (2 * n) < 2 * n := Nat.mod_lt _ (by omega)
  have hqz : 2 * (n : Int) * (((2 * a + n) / (2 * n) : Nat) : Int)
      + (((2 * a + n) % (2 * n) : Nat) : Int) = 2 * a + n := by exact_mod_cast hq
  have hgoal : 2 * ((n : Int) * (((2 * a + n) / (2 * n) : Nat) : Int) - a)
      = (n : Int) - (((2 * a + n) % (2 * n) : Nat) : Int) := by linarith
  rw [hgoal]
  omega

/-- **C10** (token-accounting rounding identity): a successful single AI
batch call over `n = emails.length` messages that consumed `inTok` input and
`outTok` output tokens attaches per-message usage `round(inTok/n)` /
`round(outTok/n)` to every returned result; the engine's per-batch
aggregation adds exactly `n * round(inTok/n)` and `n * round(outTok/n)` to
its running totals (the first result's share times the result count) and
increments `requestCount` by exactly one; and each such aggregated total
differs from the tokens actually consumed by at most `n/2`
(`|n*round(a/n) - a| * 2 ≤ n`). -/
theorem C10_token_rounding (emails : List EmailData) (text : String)
    (inTok outTok : Nat) (tot : TokenTotals) (h : emails ≠ []) :
    (analyzeBatchEmailsWithClaude (.success text inTok outTok) emails).length = emails.length
    ∧ (∀ r ∈ analyzeBatchEmailsWithClaude (.success text inTok outTok) emails,
        r.tokenUsage = some ⟨some (jsRound inTok emails.length),
          some (jsRound outTok emails.length),
          some (jsRound (inTok + outTok) emails.length), false⟩)
    ∧ (aggregateBatchTokens tot
          (analyzeBatchEmailsWithClaude (.success text inTok outTok) emails)).inputTokens
        = jsAdd tot.inputTokens (some (emails.length * jsRound inTok emails.length))
    ∧ (aggregateBatchTokens tot
          (analyzeBatchEmailsWithClaude (.success text inTok outTok) emails)).outputTokens
        = jsAdd tot.outputTokens (some (emails.length * jsRound outTok emails.length))
    ∧ (aggregateBatchTokens tot
          (analyzeBatchEmailsWithClaude (.success text inTok outTok) emails)).requestCount
        = tot.requestCount + 1
    ∧ (2 * ((emails.length : Int) * jsRound inTok emails.length - inTok)).natAbs
        ≤ emails.length
    ∧ (2 * ((emails.length : Int) * jsRound outTok emails.length - outTok)).natAbs
        ≤ emails.length := by
  have hn : 0 < emails.length := List.length_pos.mpr h
  have hlen := analyzeBatchEmailsWithClaude_length (.success text inTok outTok) emails
  have hmem : ∀ r ∈ analyzeBatchEmailsWithClaude (.success text inTok outTok) emails,
      r.tokenUsage = some ⟨some (jsRound inTok emails.length),
        some (jsRound outTok emails.length),
        some (jsRound (inTok + outTok) emails.length), false⟩ := by
    intro r hr
    simp only [analyzeBatchEmailsWithClaude, List.mem_map] at hr
    obtain ⟨b, _, hb⟩ := hr
    rw [← hb]
  refine ⟨hlen, hmem, ?_, ?_, ?_,
    jsRound_mul_close inTok emails.length hn, jsRound_mul_close outTok emails.length hn⟩
  all_goals {
    cases hb : analyzeBatchEmailsWithClaude (.success text inTok outTok) emails with
    | nil => rw [hb] at hlen; simp at hlen; omega
    | cons r rest =>
      have hu := hmem r (by rw [hb]; exact List.mem_cons_self r rest)
      have hlen2 : rest.length + 1 = emails.length := by
        rw [hb] at hlen
        simpa using hlen
      simp only [aggregateBatchTokens, hu, jsMul]
      try rw [← hlen2]
      try simp [Nat.mul_comm]
  }

/-- Witness for C10: a 3-email batch with 100 input / 20 output tokens gives
every result usage 33/7/40, adds 99/21 to the totals, bumps `requestCount`
to 1, and `|3*33 - 100| * 2 = 2 ≤ 3`. -/
theorem C10_token_rounding_witness :
    (aggregateBatchTokens ⟨some 0, some 0, some 0, 0⟩
        (analyzeBatchEmailsWithClaude (.success "[]" 100 20)
          [⟨"m1", "t", "s", "a@x", "p", 0, 1⟩, ⟨"m2", "t", "s", "a@x", "p", 0, 1⟩,
           ⟨"m3", "t", "s", "a@x", "p", 0, 1⟩])).inputTokens = some 99
    ∧ (aggregateBatchTokens ⟨some 0, some 0, some 0, 0⟩
        (analyzeBatchEmailsWithClaude (.success "[]" 100 20)
          [⟨"m1", "t", "s", "a@x", "p", 0, 1⟩, ⟨"m2", "t", "s", "a@x", "p", 0, 1⟩,
           ⟨"m3", "t", "s", "a@x", "p", 0, 1⟩])).requestCount = 1 := by
  have h := C10_token_rounding
    [⟨"m1", "t", "s", "a@x", "p", 0, 1⟩, ⟨"m2", "t", "s", "a@x", "p", 0, 1⟩,
     ⟨"m3", "t", "s", "a@x", "p", 0, 1⟩] "[]" 100 20 ⟨some 0, some 0, some 0, 0⟩
    (by simp)
  exact ⟨(h.2.2.1).trans (by rfl), h.2.2.2.2.1⟩

theorem int_min?_spec {l : List Int} {o : Int} (h : l.min? = some o) :
    o ∈ l ∧ ∀ x ∈ l, o ≤ x :=
  (@List.min?_eq_some_iff Int o _ _ ⟨fun h1 h2 => le_antisymm h1 h2⟩
    (fun a => le_refl a) (fun a b => min_choice a b) (fun _ _ _ => le_min_iff) l).mp h

theorem int_max?_spec {l : List Int} {o : Int} (h : l.max? = some o) :
    o ∈ l ∧ ∀ x ∈ l, x ≤ o :=
  (@List.max?_eq_some_iff Int o _ _ ⟨fun h1 h2 => le_antisymm h1 h2⟩
    (fun a => le_refl a) (fun a b => max_choice a b) (fun _ _ _ => max_le_iff) l).mp h

theorem min?_isSome_of_ne_nil {l : List Int} (h : l ≠ []) : ∃ o, l.min? = some o := by
  cases l with
  | nil => exact absurd rfl h
  | cons x xs => exact ⟨_, rfl⟩

theorem max?_isSome_of_ne_nil {l : List Int} (h : l ≠ []) : ∃ o, l.max? = some o := by
  cases l with
  | nil => exact absurd rfl h
  | cons x xs => exact ⟨_, rfl⟩

theorem mem_pruneWindow {cfg : RateLimiterConfig} {now x : Int} {reqs : List Int} :
    x ∈ pruneWindow cfg now reqs ↔ x ∈ reqs ∧ now - x < cfg.windowMs := by
  simp [pruneWindow, List.mem_filter]

theorem afterWindowWait_ge (cfg : RateLimiterConfig) (now : Int) (reqs' : List Int) :
    now ≤ afterWindowWait cfg now reqs' := by
  unfold afterWindowWait
  split
  · split
    · split <;> omega
    · omega
  · omega

theorem recordTime_ge (cfg : RateLimiterConfig) (now : Int) (reqs' : List Int) :
    now ≤ recordTime cfg now reqs' := by
  have h := afterWindowWait_ge cfg now reqs'
  unfold recordTime
  cases reqs'.max? with
  | none => exact h
  | some last => simp only []; split <;> omega

theorem recordTime_ge_afterWindowWait (cfg : RateLimiterConfig) (now : Int)
    (reqs' : List Int) : afterWindowWait cfg now reqs' ≤ recordTime cfg now reqs' := by
  unfold recordTime
  cases reqs'.max? with
  | none => exact le_refl _
  | some last => simp only []; split <;> omega

theorem pruneWindow_eq_windowFilter {cfg : RateLimiterConfig} {now : Int}
    {reqs : List Int} (hle : ∀ x ∈ reqs, x ≤ now) :
    pruneWindow cfg now reqs
      = reqs.filter (fun t => now - cfg.windowMs + 1 ≤ t
          ∧ t < (now - cfg.windowMs + 1) + cfg.windowMs) := by
  unfold pruneWindow
  apply List.filter_congr
  intro x hx
  have := hle x hx
  simp only [decide_eq_decide]
  omega

theorem pruneWindow_length_le {cfg : RateLimiterConfig} {now : Int} {reqs : List Int}
    (hwin : ∀ a : Int, windowCount cfg a reqs ≤ cfg.maxRequests)
    (hle : ∀ x ∈ reqs, x ≤ now) :
    (pruneWindow cfg now reqs).length ≤ cfg.maxRequests := by
  rw [pruneWindow_eq_windowFilter hle]
  exact hwin (now - cfg.windowMs + 1)

theorem windowCount_append (cfg : RateLimiterConfig) (a : Int) (l1 l2 : List Int) :
    windowCount cfg a (l1 ++ l2) = windowCount cfg a l1 + windowCount cfg a l2 := by
  unfold windowCount
  rw [List.filter_append, List.length_append]

/-- Recording later only sheds window pressure: if every in-window element of
`reqs` survives the prune, the pruned list covers the same window. -/
theorem windowCount_pruneWindow_eq {cfg : RateLimiterConfig} {now a : Int}
    {reqs : List Int}
    (h : ∀ x ∈ reqs, (a ≤ x ∧ x < a + cfg.windowMs) → now - x < cfg.windowMs) :
    windowCount cfg a (pruneWindow cfg now reqs) = windowCount cfg a reqs := by
  unfold windowCount pruneWindow
  rw [List.filter_filter]
  apply congrArg List.length
  apply List.filter_congr
  intro x hx
  by_cases hw : a ≤ x ∧ x < a + cfg.windowMs
  · have hk := h x hx hw
    simp [hw, hk]
  · simp [hw]

/-- The single-call step: starting from an invariant state, a `waitIfNeeded`
call at `now = time + gap` records no earlier than `now`, reestablishes the
invariant, and its recorded timestamp is at least `minDelayMs` after every
previously recorded timestamp (pruned ones included). -/
theorem waitIfNeeded_step {cfg : RateLimiterConfig} {time gap : Int} {reqs : List Int}
    (hmax : 1 ≤ cfg.maxRequests) (hd : cfg.minDelayMs ≤ cfg.windowMs)
    (hinv : RLInv cfg time reqs) (hgap : 0 ≤ gap) :
    time + gap ≤ (waitIfNeeded cfg (time + gap) reqs).1
    ∧ RLInv cfg (waitIfNeeded cfg (time + gap) reqs).1 (waitIfNeeded cfg (time + gap) reqs).2
    ∧ (∀ x ∈ reqs, x + cfg.minDelayMs ≤ (waitIfNeeded cfg (time + gap) reqs).1) := by
  obtain ⟨h1, h2, h3, h4⟩ := hinv
  set now := time + gap with hnow
  have hle_now : ∀ x ∈ reqs, x ≤ now := fun x hx => by
    have := h3 x hx
    omega
  set reqs' := pruneWindow cfg now reqs with hreqs'
  have hsubmem : ∀ x ∈ reqs', x ∈ reqs ∧ now - x < cfg.windowMs :=
    fun x hx => mem_pruneWindow.mp hx
  have hplen : reqs'.length ≤ cfg.maxRequests := pruneWindow_length_le h4 hle_now
  have hrec : (waitIfNeeded cfg now reqs).1 = recordTime cfg now reqs' := rfl
  have hlist : (waitIfNeeded cfg now reqs).2 = reqs' ++ [recordTime cfg now reqs'] := rfl
  have hge : now ≤ recordTime cfg now reqs' := recordTime_ge cfg now reqs'
  -- spacing from every old timestamp (kept or pruned) to the new record
  have hspace : ∀ x ∈ reqs, x + cfg.minDelayMs ≤ recordTime cfg now reqs' := by
    intro x hx
    by_cases hkeep : now - x < cfg.windowMs
    · have hxmem : x ∈ reqs' := mem_pruneWindow.mpr ⟨hx, hkeep⟩
      have hne : reqs' ≠ [] := fun hnil => by rw [hnil] at hxmem; cases hxmem
      obtain ⟨last, hlast⟩ := max?_isSome_of_ne_nil hne
      have hlspec := int_max?_spec hlast
      have hxle : x ≤ last := hlspec.2 x hxmem
      have haww := afterWindowWait_ge cfg now reqs'
      unfold recordTime
      rw [hlast]
      simp only []
      split <;> omega
    · have : x + cfg.windowMs ≤ now := by omega
      omega
  -- the full-window case pushes the record past the oldest's expiry
  have hfull : reqs'.length ≥ cfg.maxRequests →
      ∀ o, reqs'.min? = some o →
        o + cfg.windowMs + 100 ≤ recordTime cfg now reqs' := by
    intro hf o ho
    have hospec := int_min?_spec ho
    have honow : now - o < cfg.windowMs := (hsubmem o hospec.1).2
    have haww : afterWindowWait cfg now reqs' = now + windowWaitTime cfg now o := by
      unfold afterWindowWait
      rw [if_pos hf, ho]
      simp only []
      rw [if_pos (by unfold windowWaitTime; omega)]
    have h2aww := recordTime_ge_afterWindowWait cfg now reqs'
    unfold windowWaitTime at haww
    omega
  refine ⟨hge, ⟨?_, ?_, ?_, ?_⟩, fun x hx => hspace x hx⟩
  · -- sorted
    rw [hlist]
    rw [List.pairwise_append]
    refine ⟨h1.sublist (List.filter_sublist _), by simp, ?_⟩
    intro x hx y hy
    rw [List.mem_singleton] at hy
    subst hy
    have := hle_now x (hsubmem x hx).1
    omega
  · -- min-delay spacing
    rw [hlist]
    rw [List.pairwise_append]
    refine ⟨h2.sublist (List.filter_sublist _), by simp, ?_⟩
    intro x hx y hy
    rw [List.mem_singleton] at hy
    subst hy
    exact hspace x (hsubmem x hx).1
  · -- everything ≤ the new record
    rw [hlist, hrec]
    intro x hx
    rw [List.mem_append] at hx
    rcases hx with hx | hx
    · have := hle_now x (hsubmem x hx).1
      omega
    · rw [List.mem_singleton] at hx
      subst hx
      exact le_refl _
  · -- window bound
    rw [hlist]
    intro a
    rw [windowCount_append]
    by_cases hrecin : a ≤ recordTime cfg now reqs' ∧
        recordTime cfg now reqs' < a + cfg.windowMs
    · have hone : windowCount cfg a [recordTime cfg now reqs'] = 1 := by
        unfold windowCount
        simp [hrecin]
      by_cases hf : reqs'.length ≥ cfg.maxRequests
      · have hne : reqs' ≠ [] := by
          intro hnil
          rw [hnil] at hf
          simp at hf
          omega
        obtain ⟨o, ho⟩ := min?_isSome_of_ne_nil hne
        have hrge := hfull hf o ho
        have homem := (int_min?_spec ho).1
        have honot : ¬(a ≤ o ∧ o < a + cfg.windowMs) := by omega
        have hlt : (reqs'.filter (fun t => a ≤ t ∧ t < a + cfg.windowMs)).length
            < reqs'.length := by
          apply List.length_filter_lt_length_iff_exists.mpr
          exact ⟨o, homem, by simpa using honot⟩
        unfold windowCount at *
        omega
      · have hcle : (reqs'.filter (fun t => a ≤ t ∧ t < a + cfg.windowMs)).length
            ≤ reqs'.length := List.length_filter_le _ _
        unfold windowCount at *
        omega
    · have hzero : windowCount cfg a [recordTime cfg now reqs'] = 0 := by
        unfold windowCount
        simp [hrecin]
      have hcle : (reqs'.filter (fun t => a ≤ t ∧ t < a + cfg.windowMs)).length
          ≤ reqs'.length := List.length_filter_le _ _
      unfold windowCount at *
      omega

theorem runCalls_ge {cfg : RateLimiterConfig} (hmax : 1 ≤ cfg.maxRequests)
    (hd : cfg.minDelayMs ≤ cfg.windowMs) :
    ∀ (gaps : List Int) (time : Int) (reqs : List Int), RLInv cfg time reqs →
      (∀ g ∈ gaps, 0 ≤ g) → ∀ y ∈ runCalls cfg gaps time reqs, time ≤ y := by
  intro gaps
  induction gaps with
  | nil => intro time reqs _ _ y hy; cases hy
  | cons gap gaps ih =>
    intro time reqs hinv hg y hy
    have hg0 : 0 ≤ gap := hg gap (by simp)
    have hstep := waitIfNeeded_step hmax hd hinv hg0
    simp only [runCalls, List.mem_cons] at hy
    rcases hy with hy | hy
    · subst hy; omega
    · have := ih _ _ hstep.2.1 (fun g hgm => hg g (by simp [hgm])) y hy
      omega

/-- The main trace invariant: starting from any invariant state, the old list
concatenated with all subsequently recorded timestamps keeps the min-delay
spacing pairwise and never exceeds `maxRequests` in any sliding window. -/
theorem runCalls_main {cfg : RateLimiterConfig} (hmax : 1 ≤ cfg.maxRequests)
    (hd : cfg.minDelayMs ≤ cfg.windowMs) :
    ∀ (gaps : List Int) (time : Int) (reqs : List Int), RLInv cfg time reqs →
      (∀ g ∈ gaps, 0 ≤ g) →
      (reqs ++ runCalls cfg gaps time reqs).Pairwise
          (fun x y => x + cfg.minDelayMs ≤ y)
      ∧ (∀ a : Int, windowCount cfg a (reqs ++ runCalls cfg gaps time reqs)
          ≤ cfg.maxRequests) := by
  intro gaps
  induction gaps with
  | nil =>
    intro time reqs hinv _
    simp only [runCalls, List.append_nil]
    exact ⟨hinv.2.1, hinv.2.2.2⟩
  | cons gap gaps ih =>
    intro time reqs hinv hg
    have hg0 : 0 ≤ gap := hg gap (by simp)
    have hstep := waitIfNeeded_step hmax hd hinv hg0
    obtain ⟨hnow_le, hinv', hspace⟩ := hstep
    have hgt : ∀ g ∈ gaps, 0 ≤ g := fun g hgm => hg g (by simp [hgm])
    have iha := ih _ _ hinv' hgt
    set now := time + gap with hnowdef
    set p := waitIfNeeded cfg now reqs with hp
    set rest := runCalls cfg gaps p.1 p.2 with hrest
    have htrace : runCalls cfg (gap :: gaps) time reqs = p.1 :: rest := rfl
    have hp2 : p.2 = pruneWindow cfg now reqs ++ [p.1] := rfl
    have hassoc : p.2 ++ rest = pruneWindow cfg now reqs ++ (p.1 :: rest) := by
      rw [hp2, List.append_assoc]
      rfl
    have hrest_ge : ∀ y ∈ rest, p.1 ≤ y := runCalls_ge hmax hd gaps p.1 p.2 hinv' hgt
    have hle_now : ∀ x ∈ reqs, x ≤ now := fun x hx => by
      have := hinv.2.2.1 x hx
      omega
    rw [htrace]
    constructor
    · rw [List.pairwise_append]
      refine ⟨hinv.2.1, ?_, ?_⟩
      · have := iha.1
        rw [hassoc] at this
        exact this.sublist (List.sublist_append_right _ _)
      · intro x hx y hy
        rcases List.mem_cons.mp hy with hy | hy
        · subst hy; exact hspace x hx
        · have h1 := hspace x hx
          have h2 := hrest_ge y hy
          omega
    · intro a
      rw [windowCount_append]
      by_cases hex : ∃ x ∈ reqs, ¬(now - x < cfg.windowMs)
          ∧ (a ≤ x ∧ x < a + cfg.windowMs)
      · obtain ⟨x, hx, hxp, hxw⟩ := hex
        have hally : ∀ y ∈ p.1 :: rest, ¬(a ≤ y ∧ y < a + cfg.windowMs) := by
          intro y hy
          have hy1 : p.1 ≤ y := by
            rcases List.mem_cons.mp hy with hy | hy
            · subst hy; exact le_refl _
            · exact hrest_ge y hy
          have hynow : now ≤ y := le_trans hnow_le hy1
          omega
        have hzero : windowCount cfg a (p.1 :: rest) = 0 := by
          unfold windowCount
          rw [List.filter_eq_nil_iff.mpr (by intro y hy; simpa using hally y hy)]
          rfl
        have := hinv.2.2.2 a
        omega
      · push_neg at hex
        have hkeep : ∀ x ∈ reqs, (a ≤ x ∧ x < a + cfg.windowMs) →
            now - x < cfg.windowMs := by
          intro x hx hw
          by_contra hc
          have := hex x hx (by omega) hw.1
          omega
        have hcnt := @windowCount_pruneWindow_eq cfg now a reqs hkeep
        have hialt := iha.2 a
        rw [hassoc, windowCount_append] at hialt
        omega

/-- **C2** (rate limiter admission invariant, amended): for any configuration
with `1 ≤ maxRequests` and `minDelayMs ≤ windowMs`, and any finite sequence
of sequential `waitIfNeeded()` calls (nonnegative clock gaps between calls),
the recorded trace has no sliding `windowMs` window holding more than
`maxRequests` timestamps and any two consecutive recorded timestamps lie at
least `minDelayMs` apart; when the window is full the computed wait is
exactly the time until the oldest in-window timestamp expires plus the fixed
100 ms buffer. -/
theorem C2_rate_limiter (cfg : RateLimiterConfig) (gaps : List Int) (t0 : Int)
    (hmax : 1 ≤ cfg.maxRequests) (hdelay : cfg.minDelayMs ≤ cfg.windowMs)
    (hg : ∀ g ∈ gaps, 0 ≤ g) :
    (∀ a : Int, windowCount cfg a (runCalls cfg gaps t0 []) ≤ cfg.maxRequests)
    ∧ (runCalls cfg gaps t0 []).Chain' (fun x y => x + cfg.minDelayMs ≤ y)
    ∧ (∀ (now : Int) (reqs : List Int) (oldest : Int),
        (pruneWindow cfg now reqs).length ≥ cfg.maxRequests →
        (pruneWindow cfg now reqs).min? = some oldest →
        windowWaitTime cfg now oldest = (oldest + cfg.windowMs - now) + 100) := by
  have hinv0 : RLInv cfg t0 [] := by
    refine ⟨List.Pairwise.nil, List.Pairwise.nil, by simp, ?_⟩
    intro a
    unfold windowCount
    simp
  have hmain := runCalls_main hmax hdelay gaps t0 [] hinv0 hg
  rw [List.nil_append] at hmain
  refine ⟨hmain.2, hmain.1.chain', ?_⟩
  intro now reqs oldest _ _
  unfold windowWaitTime
  ring

/-- Counterexample to C2 as stated: with configuration
`maxRequests = 1, windowMs = 10, minDelayMs = 100` (a minimum delay larger
than the window) two calls 50 ms apart record timestamps 0 and 50 — only
50 ms apart, violating the claimed `minDelayMs` spacing — because the second
call finds the window empty after pruning and therefore never consults the
previous (pruned) timestamp. -/
theorem C2_rate_limiter_counterexample :
    (∀ g ∈ ([0, 50] : List Int), 0 ≤ g)
    ∧ runCalls ⟨1, 10, 100⟩ [0, 50] 0 [] = [0, 50]
    ∧ ¬ (runCalls ⟨1, 10, 100⟩ [0, 50] 0 []).Chain'
        (fun x y => x + (100 : Int) ≤ y) := by
  refine ⟨by decide, by rfl, ?_⟩
  intro h
  rw [show runCalls ⟨1, 10, 100⟩ [0, 50] 0 [] = [0, 50] from rfl] at h
  have := List.chain'_cons.mp h
  omega

/-- Witness for C2 at the concrete configuration `⟨2, 1000, 8⟩` and three
back-to-back calls: the trace is admissible in every window and min-delay
spaced. -/
theorem C2_rate_limiter_witness :
    windowCount ⟨2, 1000, 8⟩ 0 (runCalls ⟨2, 1000, 8⟩ [0, 0, 0] 0 []) ≤ 2
    ∧ (runCalls ⟨2, 1000, 8⟩ [0, 0, 0] 0 []).Chain'
        (fun x y => x + (8 : Int) ≤ y) := by
  have h := C2_rate_limiter ⟨2, 1000, 8⟩ [0, 0, 0] 0 (by decide) (by decide) (by decide)
  exact ⟨h.1 0, h.2.1⟩

/-- Counterexample to C8 as stated: `classifyEmail` never inspects the sender
for a noreply pattern, so a noreply sender whose subject contains a keyword
indicator is classified locally — "Weekly newsletter" from
`noreply@shop.com` yields `newsletter`, not `unknown`. -/
theorem C8_noreply_counterexample :
    isNoreplyStyle "noreply@shop.com" = true
    ∧ classifyEmail "Weekly newsletter" "noreply@shop.com" "noreply@shop.com"
        = "newsletter"
    ∧ classifyEmail "Weekly newsletter" "noreply@shop.com" "noreply@shop.com"
        ≠ "unknown" := by
  refine ⟨by rfl, by rfl, ?_⟩
  intro h
  rw [show classifyEmail "Weekly newsletter" "noreply@shop.com" "noreply@shop.com"
      = "newsletter" from rfl] at h
  simp at h

/-- **C8** (amended — local classifier noreply conservatism): a
"noreply"-style sender is classified `unknown` (and so routed to AI)
provided none of the explicit newsletter/promotional/social keyword
indicators occurs in its subject or sender fields; the classifier has no
noreply rule of its own, so keyword indicators take precedence over the
sender's noreply-ness. -/
theorem C8_noreply_conservatism (subject fromField senderEmail : String)
    (hn : isNoreplyStyle senderEmail = true)
    (h1 : matchesNewsletterIndicators (jsToLower subject) (jsToLower fromField)
        (jsToLower senderEmail) = false)
    (h2 : matchesPromotionalIndicators (jsToLower subject) = false)
    (h3 : matchesSocialIndicators (jsToLower fromField) (jsToLower senderEmail)
        = false) :
    classifyEmail subject fromField senderEmail = "unknown" := by
  unfold classifyEmail
  simp only [h1, h2, h3]
  rfl

/-- Witness for C8 at a concrete noreply sender with an indicator-free
subject. -/
theorem C8_noreply_conservatism_witness :
    classifyEmail "Your statement is ready" "My Bank <noreply@bank.com>"
      "noreply@bank.com" = "unknown" :=
  C8_noreply_conservatism "Your statement is ready" "My Bank <noreply@bank.com>"
    "noreply@bank.com" (by rfl) (by rfl) (by rfl) (by rfl)

theorem insertByDateDesc_length (c : CandidateEntry) (l : List CandidateEntry) :
    (insertByDateDesc c l).length = l.length + 1 := by
  induction l with
  | nil => rfl
  | cons d rest ih =>
    unfold insertByDateDesc
    split
    · simp
    · simp [ih]

theorem sortByDateDesc_length (l : List CandidateEntry) :
    (sortByDateDesc l).length = l.length := by
  induction l with
  | nil => rfl
  | cons c rest ih =>
    show (insertByDateDesc c (sortByDateDesc rest)).length = rest.length + 1
    rw [insertByDateDesc_length, ih]

theorem insertByDateDesc_mem {x c : CandidateEntry} {l : List CandidateEntry} :
    x ∈ insertByDateDesc c l ↔ x = c ∨ x ∈ l := by
  induction l with
  | nil => simp [insertByDateDesc]
  | cons d rest ih =>
    unfold insertByDateDesc
    split
    · simp
    · simp [ih]
      tauto

theorem sortByDateDesc_mem {x : CandidateEntry} {l : List CandidateEntry} :
    x ∈ sortByDateDesc l ↔ x ∈ l := by
  induction l with
  | nil => simp [sortByDateDesc]
  | cons c rest ih =>
    show x ∈ insertByDateDesc c (sortByDateDesc rest) ↔ _
    rw [insertByDateDesc_mem]
    simp [ih]

theorem filter_partition_length (analyses : List ReportInput)
    (h : ∀ a ∈ analyses, a.cleanupRecommendation = "delete"
        ∨ a.cleanupRecommendation = "archive" ∨ a.cleanupRecommendation = "keep") :
    (analyses.filter isDeleteOrArchive).length + (analyses.filter isKeep).length
      = analyses.length := by
  induction analyses with
  | nil => rfl
  | cons a rest ih =>
    have ha := h a (by simp)
    have hrest := ih (fun b hb => h b (by simp [hb]))
    rcases ha with ha | ha | ha
    · simp [List.filter_cons, isDeleteOrArchive, isKeep, ha]
      omega
    · simp [List.filter_cons, isDeleteOrArchive, isKeep, ha]
      omega
    · simp [List.filter_cons, isDeleteOrArchive, isKeep, ha]
      omega

/-- Counterexample to C5 as stated: an analysis whose recommendation is
neither `delete`, `archive` nor `keep` (the AI's output is untrusted JSON, so
this happens) joins neither candidate list, so
`deletionCandidates + keepCandidates < totalEmails`. -/
theorem C5_report_counterexample :
    (generateReport [⟨"e1", "unknown", "maybe", "r", "low",
        ⟨"e1", "t", "s", "f", "p", 0, 100⟩⟩]).summary.deletionCandidates
      + (generateReport [⟨"e1", "unknown", "maybe", "r", "low",
        ⟨"e1", "t", "s", "f", "p", 0, 100⟩⟩]).summary.keepCandidates
      ≠ (generateReport [⟨"e1", "unknown", "maybe", "r", "low",
        ⟨"e1", "t", "s", "f", "p", 0, 100⟩⟩]).summary.totalEmails := by
  intro h
  rw [show (generateReport [⟨"e1", "unknown", "maybe", "r", "low",
      ⟨"e1", "t", "s", "f", "p", 0, 100⟩⟩]).summary.deletionCandidates = 0 from rfl,
    show (generateReport [⟨"e1", "unknown", "maybe", "r", "low",
      ⟨"e1", "t", "s", "f", "p", 0, 100⟩⟩]).summary.keepCandidates = 0 from rfl,
    show (generateReport [⟨"e1", "unknown", "maybe", "r", "low",
      ⟨"e1", "t", "s", "f", "p", 0, 100⟩⟩]).summary.totalEmails = 1 from rfl] at h
  omega

/-- **C5** (amended — report internal consistency): for every list of
analyses, the report's `totalEmails` is the number of analyses, the
deletion-candidate count is the number of delete/archive-recommended
analyses (archive entries are appended to the deletion-candidate list), the
keep-candidate count is the number of keep-recommended analyses,
`potentialSavings` is exactly the summed size of the delete/archive-recommended
messages, and — provided every recommendation is `delete`, `archive` or
`keep` — `deletionCandidates + keepCandidates = totalEmails`. -/
theorem C5_report_consistency (analyses : List ReportInput) :
    (generateReport analyses).summary.totalEmails = analyses.length
    ∧ (generateReport analyses).summary.deletionCandidates
        = (analyses.filter isDeleteOrArchive).length
    ∧ (generateReport analyses).summary.keepCandidates
        = (analyses.filter isKeep).length
    ∧ (generateReport analyses).summary.potentialSavings
        = ((analyses.filter isDeleteOrArchive).map (fun a => a.originalEmail.size)).sum
    ∧ (∀ a ∈ analyses, a.cleanupRecommendation = "archive" →
        mkCandidate a ∈ (generateReport analyses).deletionCandidates)
    ∧ ((∀ a ∈ analyses, a.cleanupRecommendation = "delete"
          ∨ a.cleanupRecommendation = "archive" ∨ a.cleanupRecommendation = "keep") →
        (generateReport analyses).summary.deletionCandidates
            + (generateReport analyses).summary.keepCandidates
          = (generateReport analyses).summary.totalEmails) := by
  refine ⟨rfl, ?_, ?_, rfl, ?_, ?_⟩
  · show (sortByDateDesc ((analyses.filter isDeleteOrArchive).map mkCandidate)).length = _
    rw [sortByDateDesc_length, List.length_map]
  · show (sortByDateDesc ((analyses.filter isKeep).map mkCandidate)).length = _
    rw [sortByDateDesc_length, List.length_map]
  · intro a ha harch
    show mkCandidate a ∈ sortByDateDesc ((analyses.filter isDeleteOrArchive).map mkCandidate)
    rw [sortByDateDesc_mem]
    exact List.mem_map_of_mem mkCandidate
      (List.mem_filter.mpr ⟨ha, by simp [isDeleteOrArchive, harch]⟩)
  · intro h
    show (sortByDateDesc ((analyses.filter isDeleteOrArchive).map mkCandidate)).length
        + (sortByDateDesc ((analyses.filter isKeep).map mkCandidate)).length
      = analyses.length
    rw [sortByDateDesc_length, sortByDateDesc_length, List.length_map, List.length_map]
    exact filter_partition_length analyses h

/-- Witness for C5: one delete, one archive and one keep analysis give a
2 + 1 = 3 split and savings of 100 + 40 = 140 bytes, with the archive entry
in the deletion-candidate list. -/
theorem C5_report_consistency_witness :
    (generateReport [
        ⟨"e1", "promotional", "delete", "r1", "high", ⟨"e1", "t", "s1", "f", "p", 5, 100⟩⟩,
        ⟨"e2", "newsletter", "archive", "r2", "high", ⟨"e2", "t", "s2", "f", "p", 9, 40⟩⟩,
        ⟨"e3", "personal", "keep", "r3", "high", ⟨"e3", "t", "s3", "f", "p", 7, 7⟩⟩]).summary.deletionCandidates
      + (generateReport [
        ⟨"e1", "promotional", "delete", "r1", "high", ⟨"e1", "t", "s1", "f", "p", 5, 100⟩⟩,
        ⟨"e2", "newsletter", "archive", "r2", "high", ⟨"e2", "t", "s2", "f", "p", 9, 40⟩⟩,
        ⟨"e3", "personal", "keep", "r3", "high", ⟨"e3", "t", "s3", "f", "p", 7, 7⟩⟩]).summary.keepCandidates
      = (generateReport [
        ⟨"e1", "promotional", "delete", "r1", "high", ⟨"e1", "t", "s1", "f", "p", 5, 100⟩⟩,
        ⟨"e2", "newsletter", "archive", "r2", "high", ⟨"e2", "t", "s2", "f", "p", 9, 40⟩⟩,
        ⟨"e3", "personal", "keep", "r3", "high", ⟨"e3", "t", "s3", "f", "p", 7, 7⟩⟩]).summary.totalEmails
    ∧ (generateReport [
        ⟨"e1", "promotional", "delete", "r1", "high", ⟨"e1", "t", "s1", "f", "p", 5, 100⟩⟩,
        ⟨"e2", "newsletter", "archive", "r2", "high", ⟨"e2", "t", "s2", "f", "p", 9, 40⟩⟩,
        ⟨"e3", "personal", "keep", "r3", "high", ⟨"e3", "t", "s3", "f", "p", 7, 7⟩⟩]).summary.potentialSavings
      = 140 := by
  have h := C5_report_consistency [
    ⟨"e1", "promotional", "delete", "r1", "high", ⟨"e1", "t", "s1", "f", "p", 5, 100⟩⟩,
    ⟨"e2", "newsletter", "archive", "r2", "high", ⟨"e2", "t", "s2", "f", "p", 9, 40⟩⟩,
    ⟨"e3", "personal", "keep", "r3", "high", ⟨"e3", "t", "s3", "f", "p", 7, 7⟩⟩]
  refine ⟨h.2.2.2.2.2 (by decide), ?_⟩
  rw [h.2.2.2.1]
  rfl

/-- **C4** (orphan-cleanup boundary): `cleanupEmailsInRange` deletes only
rows owned by the user whose `gmailId` is not among the processed IDs; for a
time-bounded sync (`startDate = some s`) a deleted row's date additionally
lies inside `[s, endDate]` — a row dated outside that window is always kept,
even when its ID is absent from the processed list; for an unbounded sync
(`startDate = none`) a row is deleted exactly when it belongs to the user
and its ID is not among the processed IDs. -/
theorem C4_cleanup_boundary (u : String) (validGmailIds : List String)
    (range : SyncRange) (store : List StoredEmail) :
    (∀ r ∈ (cleanupEmailsInRange u validGmailIds range store).1, r ∈ store)
    ∧ (∀ r ∈ store, r ∉ (cleanupEmailsInRange u validGmailIds range store).1 →
        r.userEmail = u ∧ r.email.gmailId ∉ validGmailIds
        ∧ (∀ s, range.startDate = some s →
            s ≤ r.email.date ∧ r.email.date ≤ range.endDate))
    ∧ (∀ s, range.startDate = some s → ∀ r ∈ store,
        (r.email.date < s ∨ range.endDate < r.email.date) →
        r ∈ (cleanupEmailsInRange u validGmailIds range store).1)
    ∧ (range.startDate = none → ∀ r ∈ store,
        (r ∉ (cleanupEmailsInRange u validGmailIds range store).1
          ↔ r.userEmail = u ∧ r.email.gmailId ∉ validGmailIds)) := by
  refine ⟨?_, ?_, ?_, ?_⟩
  · intro r hr
    exact (List.mem_filter.mp hr).1
  · intro r hr hdel
    have hmatch : cleanupMatches u validGmailIds range r = true := by
      by_contra hc
      exact hdel (List.mem_filter.mpr ⟨hr, by simp [hc]⟩)
    cases hs : range.startDate with
    | none =>
      unfold cleanupMatches at hmatch
      rw [hs] at hmatch
      simp only [decide_eq_true_eq] at hmatch
      exact ⟨hmatch.1, hmatch.2, fun s hss => by cases hss⟩
    | some s =>
      unfold cleanupMatches at hmatch
      rw [hs] at hmatch
      simp only [decide_eq_true_eq] at hmatch
      refine ⟨hmatch.1, hmatch.2.2.2, ?_⟩
      intro s' hss
      cases hss
      exact ⟨hmatch.2.1, hmatch.2.2.1⟩
  · intro s hs r hr hout
    apply List.mem_filter.mpr
    refine ⟨hr, ?_⟩
    simp only [decide_eq_true_eq]
    intro hmatch
    unfold cleanupMatches at hmatch
    rw [hs] at hmatch
    simp only [decide_eq_true_eq] at hmatch
    have h1 := hmatch.2.1
    have h2 := hmatch.2.2.1
    omega
  · intro hs r hr
    constructor
    · intro hdel
      have hmatch : cleanupMatches u validGmailIds range r = true := by
        by_contra hc
        exact hdel (List.mem_filter.mpr ⟨hr, by simp [hc]⟩)
      unfold cleanupMatches at hmatch
      rw [hs] at hmatch
      simp only [decide_eq_true_eq] at hmatch
      exact hmatch
    · intro hcond hkept
      have hp := (List.mem_filter.mp hkept).2
      simp only [decide_eq_true_eq] at hp
      apply hp
      unfold cleanupMatches
      rw [hs]
      simp [hcond.1, hcond.2]

/-- Witness for C4: a bounded sync over `[10, 20]` keeps the user's
out-of-window unprocessed row and deletes the in-window unprocessed row; an
unbounded sync deletes every unprocessed row of the user. -/
theorem C4_cleanup_boundary_witness :
    (⟨"u", ⟨"g1", "s", "a@x", "A", 5, 1, "unknown"⟩⟩ : StoredEmail)
      ∈ (cleanupEmailsInRange "u" [] ⟨some 10, 20⟩
          [⟨"u", ⟨"g1", "s", "a@x", "A", 5, 1, "unknown"⟩⟩,
           ⟨"u", ⟨"g2", "s", "a@x", "A", 15, 1, "unknown"⟩⟩]).1
    ∧ ((⟨"u", ⟨"g2", "s", "a@x", "A", 15, 1, "unknown"⟩⟩ : StoredEmail)
        ∉ (cleanupEmailsInRange "u" [] ⟨none, 20⟩
            [⟨"u", ⟨"g2", "s", "a@x", "A", 15, 1, "unknown"⟩⟩]).1) := by
  have h1 := C4_cleanup_boundary "u" [] ⟨some 10, 20⟩
    [⟨"u", ⟨"g1", "s", "a@x", "A", 5, 1, "unknown"⟩⟩,
     ⟨"u", ⟨"g2", "s", "a@x", "A", 15, 1, "unknown"⟩⟩]
  have h2 := C4_cleanup_boundary "u" [] ⟨none, 20⟩
    [⟨"u", ⟨"g2", "s", "a@x", "A", 15, 1, "unknown"⟩⟩]
  constructor
  · exact h1.2.2.1 10 rfl _ (by simp) (by simp)
  · exact (h2.2.2.2 rfl _ (by simp)).mpr ⟨rfl, by simp⟩

theorem createOrUpdateEmails_append (u : String) (l1 l2 : List SyncEmailData)
    (store : List StoredEmail) :
    createOrUpdateEmails u (l1 ++ l2) store
      = createOrUpdateEmails u l2 (createOrUpdateEmails u l1 store) := by
  unfold createOrUpdateEmails
  rw [List.foldl_append]

/-- If the first `k` batches fetch successfully and batch `k` fails, the loop
rethrows the batch error, marks the session failed with it, and leaves the
store holding exactly the upserts of the first `k` batches. -/
theorem syncBatchLoop_first_failure (u : String)
    (fetch : List String → Except String (List SyncEmailData)) :
    ∀ (batches : List (List String)) (k : Nat) (e : String) (bn total : Nat)
      (processed : List String) (w : SyncWorld),
      k < batches.length →
      fetch (batches.getD k []) = .error e →
      (∀ j, j < k → ∃ es, fetch (batches.getD j []) = .ok es) →
      (syncBatchLoop u fetch batches bn total processed w).2 = .error e
      ∧ (syncBatchLoop u fetch batches bn total processed w).1.session.status = "failed"
      ∧ (syncBatchLoop u fetch batches bn total processed w).1.session.errorMessage
          = some e
      ∧ (syncBatchLoop u fetch batches bn total processed w).1.store
          = (batches.take k).foldl
              (fun st b => createOrUpdateEmails u ((fetch b).toOption.getD []) st)
              w.store := by
  intro batches
  induction batches with
  | nil => intro k e bn total processed w hk; simp at hk
  | cons batch rest ih =>
    intro k e bn total processed w hk hfail hok
    cases k with
    | zero =>
      simp only [List.getD_cons_zero] at hfail
      unfold syncBatchLoop
      rw [hfail]
      exact ⟨rfl, rfl, rfl, rfl⟩
    | succ k =>
      obtain ⟨es, hes⟩ := hok 0 (Nat.zero_lt_succ k)
      simp only [List.getD_cons_zero] at hes
      have hfail' : fetch (rest.getD k []) = .error e := by
        simpa using hfail
      have hok' : ∀ j, j < k → ∃ es, fetch (rest.getD j []) = .ok es := by
        intro j hj
        have := hok (j + 1) (by omega)
        simpa using this
      have hkr : k < rest.length := by simpa using hk
      unfold syncBatchLoop
      rw [hes]
      have hstep := ih k e (bn + 1) (total + es.length)
        (processed ++ es.map (fun e => e.gmailId))
        { store := createOrUpdateEmails u es w.store,
          session := { w.session with
            currentBatch := some bn,
            emailsProcessed := some (total + es.length) },
          legacy := { w.legacy with
            syncInProgress := true,
            totalEmails := some (total + es.length) } }
        hkr hfail' hok'
      refine ⟨hstep.1, hstep.2.1, hstep.2.2.1, ?_⟩
      rw [hstep.2.2.2]
      simp only [List.take_succ_cons, List.foldl_cons, hes]
      rfl

/-- **C6** (sync batch-failure semantics): when the first failing batch is
batch `k` (zero-based), `syncEmails` propagates the batch error to its
caller, the session ends `failed` carrying the error message, the legacy
status is reset to not-in-progress with the error recorded, and the store
holds exactly the upserts of the earlier successful batches — the
orphan-cleanup step is never executed. -/
theorem finishSync_loop_failure (u sid : String)
    (fetch : List String → Except String (List SyncEmailData)) (range : SyncRange)
    (batches : List (List String)) (k : Nat) (e : String) (bn total : Nat)
    (processed : List String) (w : SyncWorld)
    (hk : k < batches.length)
    (hfail : fetch (batches.getD k []) = .error e)
    (hok : ∀ j, j < k → ∃ es, fetch (batches.getD j []) = .ok es) :
    (finishSync u sid range (syncBatchLoop u fetch batches bn total processed w)).2
        = .error e
    ∧ (finishSync u sid range
        (syncBatchLoop u fetch batches bn total processed w)).1.session.status
        = "failed"
    ∧ (finishSync u sid range
        (syncBatchLoop u fetch batches bn total processed w)).1.session.errorMessage
        = some e
    ∧ (finishSync u sid range
        (syncBatchLoop u fetch batches bn total processed w)).1.legacy.syncInProgress
        = false
    ∧ (finishSync u sid range
        (syncBatchLoop u fetch batches bn total processed w)).1.legacy.errorMessage
        = some e
    ∧ (finishSync u sid range
        (syncBatchLoop u fetch batches bn total processed w)).1.store
        = (batches.take k).foldl
            (fun st b => createOrUpdateEmails u ((fetch b).toOption.getD []) st)
            w.store := by
  have hloop := syncBatchLoop_first_failure u fetch batches k e bn total processed w
    hk hfail hok
  cases hres : syncBatchLoop u fetch batches bn total processed w with
  | mk w3 res =>
    rw [hres] at hloop
    simp only [] at hloop
    cases res with
    | error e2 =>
      have he2 : e2 = e := by
        have h1 := hloop.1
        exact (Except.error.injEq _ _).mp h1
      subst he2
      exact ⟨rfl, rfl, rfl, rfl, rfl, hloop.2.2.2⟩
    | ok pr =>
      exact absurd hloop.1 (by simp)

/-- **C6** (sync batch-failure semantics): when the first failing batch is
batch `k` (zero-based), `syncEmails` propagates the batch error to its
caller, the session ends `failed` carrying the error message, the legacy
status is reset to not-in-progress with the error recorded, and the store
holds exactly the upserts of the earlier successful batches — the
orphan-cleanup step is never executed. -/
theorem C6_batch_failure (u sid : String)
    (fetch : List String → Except String (List SyncEmailData))
    (range : SyncRange) (ids : List String) (w0 : SyncWorld) (k : Nat) (e : String)
    (hk : k < (chunkList 100 ids).length)
    (hfail : fetch ((chunkList 100 ids).getD k []) = .error e)
    (hok : ∀ j, j < k → ∃ es, fetch ((chunkList 100 ids).getD j []) = .ok es) :
    (syncEmails u sid fetch range ids w0).2 = .error e
    ∧ (syncEmails u sid fetch range ids w0).1.session.status = "failed"
    ∧ (syncEmails u sid fetch range ids w0).1.session.errorMessage = some e
    ∧ (syncEmails u sid fetch range ids w0).1.legacy.syncInProgress = false
    ∧ (syncEmails u sid fetch range ids w0).1.legacy.errorMessage = some e
    ∧ (syncEmails u sid fetch range ids w0).1.store
        = ((chunkList 100 ids).take k).foldl
            (fun st b => createOrUpdateEmails u ((fetch b).toOption.getD []) st)
            w0.store := by
  have hne : ¬ ids.length = 0 := by
    intro hnil
    rw [List.length_eq_zero.mp hnil] at hk
    simp [chunkList, chunkFuel] at hk
  unfold syncEmails
  rw [if_neg hne]
  exact finishSync_loop_failure u sid fetch range (chunkList 100 ids) k e 1 0 [] _
    hk hfail hok

/-- Witness for C6: a single-batch sync whose fetch throws `boom` rethrows
it, fails the session, resets the legacy status with the error and leaves
the (empty) store untouched. -/
theorem C6_batch_failure_witness :
    (syncEmails "u" "s1" (fun _ => .error "boom") ⟨none, 0⟩ ["a"]
        ⟨[], initialSession, ⟨false, false, none, none⟩⟩).2 = .error "boom"
    ∧ (syncEmails "u" "s1" (fun _ => .error "boom") ⟨none, 0⟩ ["a"]
        ⟨[], initialSession, ⟨false, false, none, none⟩⟩).1.session.status = "failed"
    ∧ (syncEmails "u" "s1" (fun _ => .error "boom") ⟨none, 0⟩ ["a"]
        ⟨[], initialSession, ⟨false, false, none, none⟩⟩).1.legacy.errorMessage
        = some "boom"
    ∧ (syncEmails "u" "s1" (fun _ => .error "boom") ⟨none, 0⟩ ["a"]
        ⟨[], initialSession, ⟨false, false, none, none⟩⟩).1.store = [] := by
  have h := C6_batch_failure "u" "s1" (fun _ => .error "boom") ⟨none, 0⟩ ["a"]
    ⟨[], initialSession, ⟨false, false, none, none⟩⟩ 0 "boom"
    (by decide) rfl (fun j hj => absurd hj (by omega))
  exact ⟨h.1, h.2.1, h.2.2.2.2.1, (h.2.2.2.2.2).trans (by rfl)⟩

/-- If every batch fetches successfully, the loop returns the accumulated
processed IDs and total, and the store holds the upserts of all fetched
emails in order. -/
theorem syncBatchLoop_all_ok (u : String)
    (fetch : List String → Except String (List SyncEmailData)) :
    ∀ (batches : List (List String)) (bn total : Nat) (processed : List String)
      (w : SyncWorld),
      (∀ b ∈ batches, ∃ es, fetch b = .ok es) →
      (syncBatchLoop u fetch batches bn total processed w).2
          = .ok (processed
              ++ ((batches.map (fun b => (fetch b).toOption.getD [])).join).map
                  (fun e => e.gmailId),
            total + ((batches.map (fun b => (fetch b).toOption.getD [])).join).length)
      ∧ (syncBatchLoop u fetch batches bn total processed w).1.store
          = createOrUpdateEmails u
              ((batches.map (fun b => (fetch b).toOption.getD [])).join) w.store := by
  intro batches
  induction batches with
  | nil =>
    intro bn total processed w _
    simp [syncBatchLoop, createOrUpdateEmails]
  | cons batch rest ih =>
    intro bn total processed w hok
    obtain ⟨es, hes⟩ := hok batch (by simp)
    have hrest : ∀ b ∈ rest, ∃ es, fetch b = .ok es := fun b hb => hok b (by simp [hb])
    unfold syncBatchLoop
    rw [hes]
    have hstep := ih (bn + 1) (total + es.length)
      (processed ++ es.map (fun e => e.gmailId))
      { store := createOrUpdateEmails u es w.store,
        session := { w.session with
          currentBatch := some bn,
          emailsProcessed := some (total + es.length) },
        legacy := { w.legacy with
          syncInProgress := true,
          totalEmails := some (total + es.length) } }
      hrest
    refine ⟨?_, ?_⟩
    · rw [hstep.1]
      simp [hes, Except.toOption, List.map_append, List.append_assoc, Nat.add_assoc]
    · rw [hstep.2]
      simp [hes, Except.toOption, createOrUpdateEmails_append]

/-- `finishSync` after an all-successful batch loop, for arbitrary loop
accumulators. -/
theorem finishSync_loop_success (u sid : String)
    (fetch : List String → Except String (List SyncEmailData)) (range : SyncRange)
    (batches : List (List String)) (bn total : Nat) (processed : List String)
    (w : SyncWorld)
    (hok : ∀ b ∈ batches, ∃ es, fetch b = .ok es) :
    (finishSync u sid range (syncBatchLoop u fetch batches bn total processed w)).2
        = .ok {
            success := true,
            totalEmails := total + (((batches.map
                (fun b => (fetch b).toOption.getD [])).join).length),
            newEmails := total + (((batches.map
                (fun b => (fetch b).toOption.getD [])).join).length),
            deletedEmails := (cleanupEmailsInRange u
                (processed ++ (((batches.map (fun b => (fetch b).toOption.getD [])).join).map
                  (fun e => e.gmailId))) range
                (createOrUpdateEmails u
                  ((batches.map (fun b => (fetch b).toOption.getD [])).join) w.store)).2,
            sessionId := some sid }
    ∧ (finishSync u sid range (syncBatchLoop u fetch batches bn total processed w)).1.store
        = (cleanupEmailsInRange u
            (processed ++ (((batches.map (fun b => (fetch b).toOption.getD [])).join).map
              (fun e => e.gmailId))) range
            (createOrUpdateEmails u
              ((batches.map (fun b => (fetch b).toOption.getD [])).join) w.store)).1
    ∧ (finishSync u sid range
        (syncBatchLoop u fetch batches bn total processed w)).1.session.status
        = "completed"
    ∧ (finishSync u sid range
        (syncBatchLoop u fetch batches bn total processed w)).1.legacy.syncInProgress
        = false
    ∧ (finishSync u sid range
        (syncBatchLoop u fetch batches bn total processed w)).1.legacy.errorMessage
        = none := by
  have hloop := syncBatchLoop_all_ok u fetch batches bn total processed w hok
  cases hres : syncBatchLoop u fetch batches bn total processed w with
  | mk w3 r =>
    rw [hres] at hloop
    simp only [] at hloop
    rw [hloop.1]
    simp only [finishSync]
    rw [hloop.2]
    refine ⟨?_, ?_, ?_, ?_, ?_⟩ <;> first | rfl | trivial

/-- The success path of `syncEmails` on a non-empty listing where every
batch fetches: the summary carries the fetched total, the in-range cleanup
count and the session ID; the final store is the cleaned upserted store;
session completed, legacy reset without error. -/
theorem syncEmails_success_run (u sid : String)
    (fetch : List String → Except String (List SyncEmailData))
    (range : SyncRange) (ids : List String) (w0 : SyncWorld)
    (hne : ids ≠ [])
    (hok : ∀ b ∈ chunkList 100 ids, ∃ es, fetch b = .ok es) :
    (syncEmails u sid fetch range ids w0).2
        = .ok {
            success := true,
            totalEmails := (((chunkList 100 ids).map
                (fun b => (fetch b).toOption.getD [])).join).length,
            newEmails := (((chunkList 100 ids).map
                (fun b => (fetch b).toOption.getD [])).join).length,
            deletedEmails := (cleanupEmailsInRange u
                ((((chunkList 100 ids).map (fun b => (fetch b).toOption.getD [])).join).map
                  (fun e => e.gmailId)) range
                (createOrUpdateEmails u
                  (((chunkList 100 ids).map (fun b => (fetch b).toOption.getD [])).join)
                  w0.store)).2,
            sessionId := some sid }
    ∧ (syncEmails u sid fetch range ids w0).1.store
        = (cleanupEmailsInRange u
            ((((chunkList 100 ids).map (fun b => (fetch b).toOption.getD [])).join).map
              (fun e => e.gmailId)) range
            (createOrUpdateEmails u
              (((chunkList 100 ids).map (fun b => (fetch b).toOption.getD [])).join)
              w0.store)).1
    ∧ (syncEmails u sid fetch range ids w0).1.session.status = "completed"
    ∧ (syncEmails u sid fetch range ids w0).1.legacy.syncInProgress = false
    ∧ (syncEmails u sid fetch range ids w0).1.legacy.errorMessage = none := by
  have h := finishSync_loop_success u sid fetch range (chunkList 100 ids) 1 0 []
    { w0 with
      session := { initialSession with
        totalEmails := some ids.length,
        totalBatches := some (chunkList 100 ids).length },
      legacy := { w0.legacy with syncInProgress := true, errorMessage := none } } hok
  have hne' : ¬ ids.length = 0 := fun h2 => hne (List.length_eq_zero.mp h2)
  have heq : syncEmails u sid fetch range ids w0
      = finishSync u sid range (syncBatchLoop u fetch (chunkList 100 ids) 1 0 []
          { w0 with
            session := { initialSession with
              totalEmails := some ids.length,
              totalBatches := some (chunkList 100 ids).length },
            legacy := { w0.legacy with syncInProgress := true, errorMessage := none } }) := by
    unfold syncEmails
    rw [if_neg hne']
  rw [heq]
  refine ⟨?_, h.2.1, h.2.2.1, h.2.2.2.1, h.2.2.2.2⟩
  rw [h.1]
  simp

/-- After upserting `e`, the first row keyed by `e.gmailId` holds exactly
the payload `e` (owned by the matched row's owner, or by `u` on insert). -/
theorem lookupFirst_upsert_self (u : String) (e : SyncEmailData)
    (st : List StoredEmail) :
    ∃ o, lookupFirst e.gmailId (upsertEmail u e st) = some ⟨o, e⟩ := by
  induction st with
  | nil => exact ⟨u, by simp [upsertEmail, lookupFirst, List.find?]⟩
  | cons r rest ih =>
    by_cases h : r.email.gmailId = e.gmailId
    · exact ⟨r.userEmail, by simp [upsertEmail, h, lookupFirst, List.find?]⟩
    · obtain ⟨o, ho⟩ := ih
      refine ⟨o, ?_⟩
      simp only [upsertEmail, if_neg h, lookupFirst, List.find?] at ho ⊢
      rw [show (r.email.gmailId == e.gmailId) = false by simp [h]]
      exact ho

/-- Upserting `e` does not disturb the first row of any other `gmailId`. -/
theorem lookupFirst_upsert_other (u : String) (e : SyncEmailData)
    (st : List StoredEmail) (g : String) (hg : g ≠ e.gmailId) :
    lookupFirst g (upsertEmail u e st) = lookupFirst g st := by
  induction st with
  | nil =>
    simp only [upsertEmail, lookupFirst, List.find?]
    rw [show (e.gmailId == g) = false by simp [Ne.symm hg]]
  | cons r rest ih =>
    by_cases h : r.email.gmailId = e.gmailId
    · simp only [upsertEmail, if_pos h, lookupFirst, List.find?]
      rw [show (e.gmailId == g) = false by simp [Ne.symm hg],
        show (r.email.gmailId == g) = false by simp [h, Ne.symm hg]]
    · simp only [upsertEmail, if_neg h, lookupFirst, List.find?]
      cases hrg : r.email.gmailId == g with
      | true => rfl
      | false => exact ih

/-- A run of upserts for emails whose `gmailId` differs from `g` leaves the
first `g`-row unchanged. -/
theorem lookupFirst_createOrUpdate_notin (u : String) (J : List SyncEmailData)
    (st : List StoredEmail) (g : String) (hg : ∀ e ∈ J, e.gmailId ≠ g) :
    lookupFirst g (createOrUpdateEmails u J st) = lookupFirst g st := by
  induction J generalizing st with
  | nil => rfl
  | cons e rest ih =>
    have hstep : createOrUpdateEmails u (e :: rest) st
        = createOrUpdateEmails u rest (upsertEmail u e st) := rfl
    rw [hstep, ih _ (fun x hx => hg x (List.mem_cons_of_mem _ hx)),
      lookupFirst_upsert_other u e st g (fun h2 => hg e (List.mem_cons_self _ _) h2.symm)]

/-- After a duplicate-free batch of upserts, every upserted email is exactly
what the first row of its `gmailId` holds — upsert keyed by `gmailId` leaves
no stale payload behind. -/
theorem lookupFirst_createOrUpdate (u : String) (J : List SyncEmailData)
    (st : List StoredEmail)
    (hnodup : (J.map (fun e => e.gmailId)).Nodup) :
    ∀ e ∈ J, ∃ o, lookupFirst e.gmailId (createOrUpdateEmails u J st) = some ⟨o, e⟩ := by
  induction J generalizing st with
  | nil => intro e he; cases he
  | cons e0 rest ih =>
    intro e he
    have hstep : createOrUpdateEmails u (e0 :: rest) st
        = createOrUpdateEmails u rest (upsertEmail u e0 st) := rfl
    rcases List.mem_cons.mp he with rfl | hmem
    · obtain ⟨o, ho⟩ := lookupFirst_upsert_self u e st
      refine ⟨o, ?_⟩
      rw [hstep, lookupFirst_createOrUpdate_notin u rest _ e.gmailId ?hne]
      · exact ho
      · intro x hx hxe
        have hmem2 : e.gmailId ∈ rest.map (fun e2 => e2.gmailId) := by
          rw [List.mem_map]
          exact ⟨x, hx, hxe⟩
        exact (List.nodup_cons.mp hnodup).1 hmem2
    · exact hstep ▸ ih _ ((List.nodup_cons.mp hnodup).2) e hmem

/-- Upserting a payload that the store already holds (as the first row of
its `gmailId`) is the identity. -/
theorem upsertEmail_id (u : String) (e : SyncEmailData) (st : List StoredEmail)
    (h : ∃ o, lookupFirst e.gmailId st = some ⟨o, e⟩) :
    upsertEmail u e st = st := by
  induction st with
  | nil => obtain ⟨o, ho⟩ := h; simp [lookupFirst, List.find?] at ho
  | cons r rest ih =>
    obtain ⟨o, ho⟩ := h
    by_cases hr : r.email.gmailId = e.gmailId
    · simp only [lookupFirst, List.find?] at ho
      rw [show (r.email.gmailId == e.gmailId) = true by simp [hr]] at ho
      have hre : r = ⟨o, e⟩ := by
        have h2 : some r = some (⟨o, e⟩ : StoredEmail) := ho
        exact Option.some.inj h2
      rw [show upsertEmail u e (r :: rest)
          = ⟨r.userEmail, e⟩ :: rest by simp [upsertEmail, hr], hre]
    · simp only [lookupFirst, List.find?] at ho
      rw [show (r.email.gmailId == e.gmailId) = false by simp [hr]] at ho
      rw [upsertEmail, if_neg hr, ih ⟨o, ho⟩]

/-- A whole batch of upserts whose payloads the store already holds is the
identity on the store. -/
theorem createOrUpdateEmails_id (u : String) (J : List SyncEmailData)
    (st : List StoredEmail)
    (h : ∀ e ∈ J, ∃ o, lookupFirst e.gmailId st = some ⟨o, e⟩) :
    createOrUpdateEmails u J st = st := by
  induction J with
  | nil => rfl
  | cons e rest ih =>
    have hstep : createOrUpdateEmails u (e :: rest) st
        = createOrUpdateEmails u rest (upsertEmail u e st) := rfl
    rw [hstep, upsertEmail_id u e st (h e (List.mem_cons_self _ _))]
    exact ih (fun x hx => h x (List.mem_cons_of_mem _ hx))

/-- A row whose `gmailId` is among the valid IDs never matches the cleanup
where-clause. -/
theorem cleanupMatches_false_of_mem {u : String} {valid : List String}
    {range : SyncRange} {r : StoredEmail} (h : r.email.gmailId ∈ valid) :
    cleanupMatches u valid range r = false := by
  unfold cleanupMatches
  cases range.startDate <;> simp [h]

/-- Cleanup keeps every row whose `gmailId` is valid, and keeps the first
such row first: lookups of valid IDs see through the cleanup. -/
theorem lookupFirst_cleanup (u : String) (valid : List String)
    (range : SyncRange) (st : List StoredEmail) (g : String) (hg : g ∈ valid) :
    lookupFirst g ((cleanupEmailsInRange u valid range st).1) = lookupFirst g st := by
  induction st with
  | nil => rfl
  | cons r rest ih =>
    simp only [cleanupEmailsInRange] at ih ⊢
    cases hrg : r.email.gmailId == g with
    | true =>
      have hrg' : r.email.gmailId = g := by simpa using hrg
      have hm : cleanupMatches u valid range r = false :=
        cleanupMatches_false_of_mem (hrg' ▸ hg)
      rw [List.filter_cons]
      simp only [hm]
      simp only [lookupFirst, List.find?, hrg]
    | false =>
      rw [List.filter_cons]
      by_cases hm : cleanupMatches u valid range r = true
      · simp only [hm]
        simp only [lookupFirst, List.find?, hrg]
        simpa [lookupFirst] using ih
      · simp only [eq_false_of_ne_true hm]
        simp only [lookupFirst, List.find?, hrg]
        simpa [lookupFirst] using ih

/-- Filtering an already-cleaned store again keeps everything; the rows the
cleanup clause matches in it are none. -/
theorem cleanup_filter_split (u : String) (valid : List String)
    (range : SyncRange) (st : List StoredEmail) :
    ((st.filter (fun r => ¬ cleanupMatches u valid range r)).filter
        (fun r => ¬ cleanupMatches u valid range r))
      = st.filter (fun r => ¬ cleanupMatches u valid range r)
    ∧ ((st.filter (fun r => ¬ cleanupMatches u valid range r)).filter
        (fun r => cleanupMatches u valid range r)) = [] := by
  induction st with
  | nil => exact ⟨rfl, rfl⟩
  | cons r rest ih =>
    by_cases hm : cleanupMatches u valid range r = true
    · simpa [List.filter_cons, hm] using ih
    · have hm' : cleanupMatches u valid range r = false := eq_false_of_ne_true hm
      simpa [List.filter_cons, hm'] using ih

/-- Running the in-range cleanup on an already-cleaned store keeps it
unchanged and deletes nothing. -/
theorem cleanupEmailsInRange_idem (u : String) (valid : List String)
    (range : SyncRange) (st : List StoredEmail) :
    cleanupEmailsInRange u valid range ((cleanupEmailsInRange u valid range st).1)
      = ((cleanupEmailsInRange u valid range st).1, 0) := by
  have h := cleanup_filter_split u valid range st
  simp only [cleanupEmailsInRange]
  rw [Prod.mk.injEq]
  refine ⟨h.1, ?_⟩
  rw [h.2]
  rfl

/-- **C7** (sync return contract, amended): a non-throwing sync returns the
total processed count, the deleted-orphan count and — on the non-empty
path — the session ID; on a zero-ID listing the session is completed with
`totalEmails = 0` and a zero summary is returned, but that summary carries
no session ID. -/
theorem C7_return_contract (u sid : String)
    (fetch : List String → Except String (List SyncEmailData))
    (range : SyncRange) (ids : List String) (w0 : SyncWorld)
    (hok : ∀ b ∈ chunkList 100 ids, ∃ es, fetch b = .ok es) :
    (ids = [] →
      (syncEmails u sid fetch range ids w0).2
          = .ok { success := true, totalEmails := 0, newEmails := 0,
                  deletedEmails := 0, sessionId := none }
      ∧ (syncEmails u sid fetch range ids w0).1.session.status = "completed"
      ∧ (syncEmails u sid fetch range ids w0).1.session.totalEmails = some 0
      ∧ (syncEmails u sid fetch range ids w0).1.legacy.syncInProgress = false)
    ∧ (ids ≠ [] →
      (syncEmails u sid fetch range ids w0).2
          = .ok { success := true,
                  totalEmails := (((chunkList 100 ids).map
                      (fun b => (fetch b).toOption.getD [])).join).length,
                  newEmails := (((chunkList 100 ids).map
                      (fun b => (fetch b).toOption.getD [])).join).length,
                  deletedEmails := (cleanupEmailsInRange u
                      ((((chunkList 100 ids).map
                          (fun b => (fetch b).toOption.getD [])).join).map
                        (fun e => e.gmailId)) range
                      (createOrUpdateEmails u
                        (((chunkList 100 ids).map
                            (fun b => (fetch b).toOption.getD [])).join)
                        w0.store)).2,
                  sessionId := some sid }
      ∧ (syncEmails u sid fetch range ids w0).1.session.status = "completed") := by
  constructor
  · rintro rfl
    exact ⟨rfl, rfl, rfl, rfl⟩
  · intro hne
    have h := syncEmails_success_run u sid fetch range ids w0 hne hok
    exact ⟨h.1, h.2.2.1⟩

/-- **C7 counterexample**: a zero-ID sync does not throw, yet its summary
carries no session ID — `sessionId` is `none`, not the ID of the session
the run created. -/
theorem C7_return_contract_counterexample :
    (syncEmails "u" "s1" (fun _ => .ok []) ⟨none, 0⟩ []
        ⟨[], initialSession, ⟨false, false, none, none⟩⟩).2
      = .ok ⟨true, 0, 0, 0, none⟩
    ∧ ∀ r : SyncRunResult,
        (syncEmails "u" "s1" (fun _ => .ok []) ⟨none, 0⟩ []
            ⟨[], initialSession, ⟨false, false, none, none⟩⟩).2 = .ok r
        → r.sessionId ≠ some "s1" := by
  refine ⟨rfl, ?_⟩
  intro r hr
  have h2 : (Except.ok (⟨true, 0, 0, 0, none⟩ : SyncRunResult)
      : Except String SyncRunResult) = .ok r := hr
  cases h2
  simp

/-- **C7 witness**: a one-message sync with a successful fetch returns the
summary `(success, 1 processed, 0 deleted, session ID s1)`, and the zero-ID
branch of the contract evaluates on an empty listing. -/
theorem C7_return_contract_witness :
    (syncEmails "u" "s1"
        (fun _ => .ok [⟨"g1", "s", "a@b", "A", 5, 10, "unknown"⟩]) ⟨none, 9⟩
        ["m1"] ⟨[], initialSession, ⟨false, false, none, none⟩⟩).2
      = .ok ⟨true, 1, 1, 0, some "s1"⟩ := by
  have h := C7_return_contract "u" "s1"
    (fun _ => .ok [⟨"g1", "s", "a@b", "A", 5, 10, "unknown"⟩]) ⟨none, 9⟩
    ["m1"] ⟨[], initialSession, ⟨false, false, none, none⟩⟩
    (fun b hb => ⟨[⟨"g1", "s", "a@b", "A", 5, 10, "unknown"⟩], rfl⟩)
  have h2 := h.2 (by simp)
  exact h2.1.trans (by rfl)

/-- **C9** (sync idempotence): with an unchanged remote mailbox (same
listing, same per-batch fetch results, duplicate-free fetched `gmailId`s),
a second sync run leaves the local store exactly as the first run left it,
and its summary reports zero deleted orphans — upsert keyed by `gmailId`
updates rows in place and the repeated cleanup removes nothing. -/
theorem C9_sync_idempotence (u sid sid2 : String)
    (fetch : List String → Except String (List SyncEmailData))
    (range : SyncRange) (ids : List String) (w0 : SyncWorld)
    (hne : ids ≠ [])
    (hok : ∀ b ∈ chunkList 100 ids, ∃ es, fetch b = .ok es)
    (hnodup : ((((chunkList 100 ids).map
        (fun b => (fetch b).toOption.getD [])).join).map
      (fun e => e.gmailId)).Nodup) :
    (syncEmails u sid2 fetch range ids
        (syncEmails u sid fetch range ids w0).1).1.store
      = (syncEmails u sid fetch range ids w0).1.store
    ∧ (syncEmails u sid2 fetch range ids
        (syncEmails u sid fetch range ids w0).1).2
      = .ok { success := true,
              totalEmails := (((chunkList 100 ids).map
                  (fun b => (fetch b).toOption.getD [])).join).length,
              newEmails := (((chunkList 100 ids).map
                  (fun b => (fetch b).toOption.getD [])).join).length,
              deletedEmails := 0,
              sessionId := some sid2 } := by
  have h1 := syncEmails_success_run u sid fetch range ids w0 hne hok
  have h2 := syncEmails_success_run u sid2 fetch range ids
    (syncEmails u sid fetch range ids w0).1 hne hok
  have hfind : ∀ e ∈ (((chunkList 100 ids).map
      (fun b => (fetch b).toOption.getD [])).join),
      ∃ o, lookupFirst e.gmailId
        (syncEmails u sid fetch range ids w0).1.store = some ⟨o, e⟩ := by
    intro e he
    obtain ⟨o, ho⟩ := lookupFirst_createOrUpdate u _ w0.store hnodup e he
    refine ⟨o, ?_⟩
    rw [h1.2.1, lookupFirst_cleanup u _ range _ e.gmailId
      (List.mem_map_of_mem (fun e2 => e2.gmailId) he)]
    exact ho
  have hupid := createOrUpdateEmails_id u _ _ hfind
  have hidem := cleanupEmailsInRange_idem u
    ((((chunkList 100 ids).map (fun b => (fetch b).toOption.getD [])).join).map
      (fun e => e.gmailId)) range
    (createOrUpdateEmails u
      (((chunkList 100 ids).map (fun b => (fetch b).toOption.getD [])).join)
      w0.store)
  have hfst := congrArg Prod.fst hidem
  have hsnd := congrArg Prod.snd hidem
  simp only [Prod.fst, Prod.snd] at hfst hsnd
  constructor
  · rw [h2.2.1, hupid, h1.2.1, hfst]
  · rw [h2.1, hupid, h1.2.1, hsnd]

/-- **C9 witness**: a concrete one-message mailbox synced twice — the second
run's summary reports one processed email, zero deletions and the second
session's ID, and the store is unchanged. -/
theorem C9_sync_idempotence_witness :
    (syncEmails "u" "s2"
        (fun _ => .ok [⟨"g1", "s", "a@b", "A", 5, 10, "unknown"⟩]) ⟨none, 9⟩
        ["m1"]
        (syncEmails "u" "s1"
          (fun _ => .ok [⟨"g1", "s", "a@b", "A", 5, 10, "unknown"⟩]) ⟨none, 9⟩
          ["m1"] ⟨[], initialSession, ⟨false, false, none, none⟩⟩).1).2
      = .ok ⟨true, 1, 1, 0, some "s2"⟩ := by
  have h := C9_sync_idempotence "u" "s1" "s2"
    (fun _ => .ok [⟨"g1", "s", "a@b", "A", 5, 10, "unknown"⟩]) ⟨none, 9⟩
    ["m1"] ⟨[], initialSession, ⟨false, false, none, none⟩⟩
    (by simp)
    (fun b hb => ⟨[⟨"g1", "s", "a@b", "A", 5, 10, "unknown"⟩], rfl⟩)
    (by simp [chunkList, chunkFuel, Except.toOption])
  exact h.2.trans (by rfl)

end GmailAnalyzer
